import Mathlib

/-!
NetStation client (`netstation.cpp`, `netstation.h`)

A shallow embedding of the EGI NetStation client: the two "until complete"
transfer loops, the command exchange `sendCommand`, and the command encoders
that build frames in the reusable command buffer.

Modelling conventions

* A `char` is a `Byte` (a value below 256); the command tags and response codes
  are ASCII letters, so their `char` value is their ASCII code.
* `int` values are integers.  The cast `int(dataSize - dataSent)` is modelled by
  `toInt32`.  The accumulations `dataSent += errorCode` are exact integer
  additions: they stay within the range of `int` whenever the requested size is
  at most `INT_MAX` and the primitive reports no more than it was asked for.
* The operating system is an `Env`: the result of every call is an arbitrary
  function of the whole history of earlier calls and of the arguments of the
  call.  Each call appends one `Event` to the history (`Log`), so the log is
  both the state of the outside world and the observable trace of the program.
* The transfer loops carry fuel; `none` means that the fuel ran out.  Memory
  accesses of the encoders are bounds checked; there `none` means an access
  outside the object that the pointer refers to.
-/

namespace NetStation

/-! ## Bytes, constants, object representation -/

/-- One `char` of memory. -/
abbrev Byte := Fin 256

/-- The `char` value of an ASCII character literal. -/
def charByte (c : Char) : Byte := ⟨c.toNat % 256, Nat.mod_lt _ (by decide)⟩

/-- Largest value of `int` (32 bit). -/
def INT_MAX : Nat := 2147483647

/-- The value of `int(x)`: reduction to the 32-bit two's complement range. -/
def toInt32 (x : Int) : Int := (x + 2147483648) % 4294967296 - 2147483648

def kLittleEndian : List Byte := [charByte 'N', charByte 'T', charByte 'E', charByte 'L']
def kBigEndian : List Byte := [charByte 'U', charByte 'N', charByte 'I', charByte 'X']

def kQuery : Byte := charByte 'Q'
def kExit : Byte := charByte 'X'
def kBeginRecording : Byte := charByte 'B'
def kEndRecording : Byte := charByte 'E'
def kAttention : Byte := charByte 'A'
def kTimeSynch : Byte := charByte 'T'
def kEventDataStream : Byte := charByte 'D'

def kQuerySuccess : Byte := charByte 'I'
def kSuccess : Byte := charByte 'Z'
def kFailure : Byte := charByte 'F'

/-- Byte order of the machine the client runs on. -/
inductive Endian where
  | little
  | big
deriving DecidableEq, Repr

/-- The `width` low-order base-256 digits of `v`, least significant first. -/
def natBytesLE : Nat → Nat → List Byte
  | 0, _ => []
  | w + 1, v => ⟨v % 256, Nat.mod_lt _ (by decide)⟩ :: natBytesLE w (v / 256)

/-- Object representation of an unsigned value of `width` bytes. -/
def objectBytes (e : Endian) (width : Nat) (v : Nat) : List Byte :=
  match e with
  | Endian.little => natBytesLE width v
  | Endian.big => (natBytesLE width v).reverse

/-- Object representation of an `int` (4 bytes, two's complement). -/
def intBytes (e : Endian) (x : Int) : List Byte :=
  objectBytes e 4 (x % 4294967296).toNat

/-- Object representation of an `unsigned short` (2 bytes). -/
def ushortBytes (e : Endian) (x : Nat) : List Byte :=
  objectBytes e 2 (x % 65536)

/-! ## The operating system -/

/-- One call of an operating-system primitive, with its arguments and what it
returned.  For `send`, `off` is the index the data pointer has in the caller's
object and `payload` the `count` bytes found there.  For `recv`, `bytes` is what
the call stored at index `off` of the caller's object. -/
inductive Event where
  | send (fd : Int) (off : Int) (count : Int) (payload : List Byte) (result : Int)
  | recv (fd : Int) (off : Int) (count : Int) (result : Int) (bytes : List Byte)
  | socket (result : Int)
  | setsockopt (fd : Int)
  | connect (fd : Int) (address : List Byte) (port : Nat) (result : Int)
  | close (fd : Int)
deriving DecidableEq, Repr

/-- The history of operating-system calls, oldest first. -/
abbrev Log := List Event

/-- A behaviour of the operating system: what each primitive returns, as a
function of the history and of the arguments of the call. -/
structure Env where
  /-- The call `::send(fd, &data[off], count, 0)`: the result. -/
  send : Log → Int → Int → Int → List Byte → Int
  /-- The call `::recv(fd, &data[off], count, 0)`: the result and the bytes stored. -/
  recv : Log → Int → Int → Int → Int × List Byte
  /-- The call `socket(PF_INET, SOCK_STREAM, 0)`: the result. -/
  socket : Log → Int
  /-- The call `::connect(fd, destination, sizeof(destination))`: the result. -/
  connect : Log → Int → List Byte → Nat → Int

/-- The contract of `send` and `recv`: a call that reports bytes (a positive
result) never reports more than it was asked for, and `recv` stores exactly the
bytes it reports (none when it reports an error or the end of the stream). -/
def Env.WellBehaved (env : Env) : Prop :=
  (∀ log fd off count payload,
      0 < env.send log fd off count payload → env.send log fd off count payload ≤ count) ∧
  (∀ log fd off count,
      (0 < (env.recv log fd off count).1 → (env.recv log fd off count).1 ≤ count) ∧
      (env.recv log fd off count).2.length = (env.recv log fd off count).1.toNat)

/-- Store `bytes` at index `off` of `dst`, one byte after the other.  A byte
whose index is outside `dst` is not stored. -/
def writeAt : List Byte → Nat → List Byte → List Byte
  | dst, _, [] => dst
  | dst, off, b :: bs => writeAt (dst.set off b) (off + 1) bs

/-! ## Transport layer -/

/-- The loop of `sendComplete`, started with `dataSent` bytes away. -/
def sendLoop (env : Env) (fd : Int) (data : List Byte) (dataSize : Nat) :
    Nat → Int → Log → Option (Int × Log)
  | 0, dataSent, log =>
    if dataSent < (dataSize : Int) then none else some (dataSent, log)
  | fuel + 1, dataSent, log =>
    if dataSent < (dataSize : Int) then
      let count := toInt32 ((dataSize : Int) - dataSent)
      let payload := (data.drop dataSent.toNat).take count.toNat
      let errorCode := env.send log fd dataSent count payload
      let log1 := log ++ [Event.send fd dataSent count payload errorCode]
      if errorCode > 0 then sendLoop env fd data dataSize fuel (dataSent + errorCode) log1
      else some (dataSent, log1)
    else some (dataSent, log)

/-- The method `EGIConnection::sendComplete`: the number of bytes sent and the history
afterwards.  Every iteration that continues adds at least one byte, so
`dataSize` iterations are enough fuel. -/
def sendComplete (env : Env) (fd : Int) (data : List Byte) (dataSize : Nat) (log : Log) :
    Option (Nat × Log) :=
  match sendLoop env fd data dataSize dataSize 0 log with
  | none => none
  | some (dataSent, log1) => some (dataSent.toNat, log1)

/-- The loop of `recvComplete`, started with `dataRecv` bytes here. -/
def recvLoop (env : Env) (fd : Int) (dataSize : Nat) :
    Nat → Int → List Byte → Log → Option (Int × List Byte × Log)
  | 0, dataRecv, data, log =>
    if dataRecv < (dataSize : Int) then none else some (dataRecv, data, log)
  | fuel + 1, dataRecv, data, log =>
    if dataRecv < (dataSize : Int) then
      let count := toInt32 ((dataSize : Int) - dataRecv)
      let r := env.recv log fd dataRecv count
      let errorCode := r.1
      let data1 := writeAt data dataRecv.toNat r.2
      let log1 := log ++ [Event.recv fd dataRecv count errorCode r.2]
      if errorCode > 0 then recvLoop env fd dataSize fuel (dataRecv + errorCode) data1 log1
      else some (dataRecv, data1, log1)
    else some (dataRecv, data, log)

/-- The method `EGIConnection::recvComplete`: the number of bytes received, the contents
of the caller's object afterwards, and the history afterwards. -/
def recvComplete (env : Env) (fd : Int) (data : List Byte) (dataSize : Nat) (log : Log) :
    Option (Nat × List Byte × Log) :=
  match recvLoop env fd dataSize dataSize 0 data log with
  | none => none
  | some (dataRecv, data1, log1) => some (dataRecv.toNat, data1, log1)

/-- The value of a one-byte object. -/
def charValue (obj : List Byte) : Byte := obj.headD 0

/-- Lines 102-105 of `sendCommand`: receive the response code.  Returns
`didSendCommand`, the object `responseCode`, and the history. -/
def recvResponseCode (env : Env) (fd : Int) (didSendCommand : Bool) (log : Log) :
    Option (Bool × List Byte × Log) :=
  if didSendCommand then
    match recvComplete env fd [0] 1 log with
    | none => none
    | some (n, responseCode, log1) => some (if n ≠ 1 then false else didSendCommand, responseCode, log1)
  else some (didSendCommand, [0], log)

/-- Lines 107-120 of `sendCommand`: receive any additional response data. -/
def recvResponseData (env : Env) (fd : Int) (didSendCommand : Bool) (responseCode : Byte)
    (log : Log) : Option (Bool × Log) :=
  if responseCode = kQuerySuccess then
    if didSendCommand then
      match recvComplete env fd [0] 1 log with
      | none => none
      | some (n, _, log1) => some (if n ≠ 1 then false else didSendCommand, log1)
    else some (didSendCommand, log)
  else if responseCode = kFailure then
    if didSendCommand then
      match recvComplete env fd [0, 0] 2 log with
      | none => none
      | some (n, _, log1) => some (if n ≠ 2 then false else didSendCommand, log1)
    else some (didSendCommand, log)
  else if responseCode ≠ kSuccess then some (false, log)
  else some (didSendCommand, log)

/-- The method `EGIConnection::sendCommand`.  `command` is `none` for the null pointer,
otherwise the object the pointer refers to. -/
def sendCommand (env : Env) (fd : Int) (command : Option (List Byte)) (commandSize : Nat)
    (log : Log) : Option (Bool × Log) :=
  match command with
  | none => some (true, log)
  | some data =>
    match sendComplete env fd data commandSize log with
    | none => none
    | some (sent, log1) =>
      let didSendCommand : Bool := if sent ≠ commandSize then false else true
      match recvResponseCode env fd didSendCommand log1 with
      | none => none
      | some (didSendCommand, responseCode, log2) =>
        recvResponseData env fd didSendCommand (charValue responseCode) log2

/-! ## The connection object and the command encoders -/

/-- Number of elements of `m_commandBuffer`. -/
def commandBufferSize : Nat := 65536 + 3

/-- The data members of `EGIConnection`. -/
structure EGIConnection where
  m_socket : Int
  m_commandBuffer : List Byte
deriving DecidableEq, Repr

/-- The command buffer has the size it is declared with. -/
def EGIConnection.WellFormed (c : EGIConnection) : Prop :=
  c.m_commandBuffer.length = commandBufferSize

/-- The constructor `EGIConnection::EGIConnection`: the socket member is 0, the
command buffer holds whatever the memory held. -/
def EGIConnection.new (memory : List Byte) : EGIConnection := ⟨0, memory⟩

/-- The method `EGIConnection::disconnect` (lines 170-180, the branch for
systems other than Windows). -/
def disconnect (c : EGIConnection) (log : Log) : EGIConnection × Log :=
  if c.m_socket ≠ 0 then
    ({ c with m_socket := 0 }, log ++ [Event.close c.m_socket])
  else (c, log)

/-- The method `EGIConnection::connect` (lines 134-167, the branch for systems
other than Windows).  `address` is the string the argument points to. -/
def connect (env : Env) (c : EGIConnection) (address : List Byte) (port : Nat) (log : Log) :
    Bool × EGIConnection × Log :=
  let didConnect := true
  let (c, log) := disconnect c log
  let m_socket := env.socket log
  let log := log ++ [Event.socket m_socket]
  let c : EGIConnection := { c with m_socket := m_socket }
  let didConnect := if c.m_socket = 0 then false else didConnect
  let log := log ++ [Event.setsockopt c.m_socket]
  let result := env.connect log c.m_socket address port
  let log := log ++ [Event.connect c.m_socket address port result]
  let didConnect := if result ≠ 0 then false else didConnect
  (didConnect, c, log)

/-- The assignment `dst[off] = b`. -/
def storeByte (dst : List Byte) (off : Nat) (b : Byte) : Option (List Byte) :=
  if off < dst.length then some (dst.set off b) else none

/-- The call `memcpy(&dst[off], src, n)`: reads `n` bytes of `src`. -/
def memcpy (dst : List Byte) (off : Nat) (src : List Byte) (n : Nat) : Option (List Byte) :=
  if n ≤ src.length ∧ off + n ≤ dst.length then some (writeAt dst off (src.take n)) else none

/-- The call `memset(&dst[off], b, n)`. -/
def memset (dst : List Byte) (off : Nat) (b : Byte) (n : Nat) : Option (List Byte) :=
  if off + n ≤ dst.length then some (writeAt dst off (List.replicate n b)) else none

/-- Lines 183-190 of `sendBeginSession`: the command buffer and `offset` when
`sendCommand` is called.  `systemSpec` is the object the argument points to. -/
def sendBeginSessionBuffer (c : EGIConnection) (systemSpec : List Byte) :
    Option (List Byte × Nat) := do
  let offset := 0
  let buf ← storeByte c.m_commandBuffer offset kQuery
  let offset := offset + 1
  let buf ← memcpy buf offset systemSpec 4
  let offset := offset + 4
  pure (buf, offset)

/-- The method `EGIConnection::sendBeginSession`. -/
def sendBeginSession (env : Env) (c : EGIConnection) (systemSpec : List Byte) (log : Log) :
    Option (Bool × EGIConnection × Log) :=
  match sendBeginSessionBuffer c systemSpec with
  | none => none
  | some (buf, offset) =>
    match sendCommand env c.m_socket (some buf) offset log with
    | none => none
    | some (r, log1) => some (r, { c with m_commandBuffer := buf }, log1)

/-- The method `EGIConnection::sendEndSession`. -/
def sendEndSession (env : Env) (c : EGIConnection) (log : Log) : Option (Bool × Log) :=
  sendCommand env c.m_socket (some [kExit]) 1 log

/-- The method `EGIConnection::sendBeginRecording`. -/
def sendBeginRecording (env : Env) (c : EGIConnection) (log : Log) : Option (Bool × Log) :=
  sendCommand env c.m_socket (some [kBeginRecording]) 1 log

/-- The method `EGIConnection::sendEndRecording`. -/
def sendEndRecording (env : Env) (c : EGIConnection) (log : Log) : Option (Bool × Log) :=
  sendCommand env c.m_socket (some [kEndRecording]) 1 log

/-- The method `EGIConnection::sendAttention`. -/
def sendAttention (env : Env) (c : EGIConnection) (log : Log) : Option (Bool × Log) :=
  sendCommand env c.m_socket (some [kAttention]) 1 log

/-- Lines 212-218 of `sendSynch`: the command buffer and `offset` when
`sendCommand` is called. -/
def sendSynchBuffer (e : Endian) (c : EGIConnection) (timeStamp : Int) :
    Option (List Byte × Nat) := do
  let offset := 0
  let buf ← storeByte c.m_commandBuffer offset kTimeSynch
  let offset := offset + 1
  let buf ← memcpy buf offset (intBytes e timeStamp) 4
  let offset := offset + 4
  pure (buf, offset)

/-- The method `EGIConnection::sendSynch`. -/
def sendSynch (env : Env) (e : Endian) (c : EGIConnection) (timeStamp : Int) (log : Log) :
    Option (Bool × EGIConnection × Log) :=
  match sendSynchBuffer e c timeStamp with
  | none => none
  | some (buf, offset) =>
    match sendCommand env c.m_socket (some buf) offset log with
    | none => none
    | some (r, log1) => some (r, { c with m_commandBuffer := buf }, log1)

/-- Lines 224-243 of `sendTrigger`: the command buffer and `offset` when
`sendCommand` is called.  `code` is the object the argument points to. -/
def sendTriggerBuffer (e : Endian) (c : EGIConnection) (code : List Byte)
    (timeStamp msDuration : Int) : Option (List Byte × Nat) := do
  let offset := 0
  let buf ← storeByte c.m_commandBuffer offset kEventDataStream
  let offset := offset + 1
  let dataSize := 25
  let buf ← memcpy buf offset (ushortBytes e dataSize) 2
  let offset := offset + 2
  let buf ← memcpy buf offset (intBytes e timeStamp) 4
  let offset := offset + 4
  let buf ← memcpy buf offset (intBytes e msDuration) 4
  let offset := offset + 4
  let buf ← memcpy buf offset code 4
  let offset := offset + 4
  let buf ← memset buf offset 0 13
  let offset := offset + 13
  pure (buf, offset)

/-- The method `EGIConnection::sendTrigger`. -/
def sendTrigger (env : Env) (e : Endian) (c : EGIConnection) (code : List Byte)
    (timeStamp msDuration : Int) (log : Log) : Option (Bool × EGIConnection × Log) :=
  match sendTriggerBuffer e c code timeStamp msDuration with
  | none => none
  | some (buf, offset) =>
    match sendCommand env c.m_socket (some buf) offset log with
    | none => none
    | some (r, log1) => some (r, { c with m_commandBuffer := buf }, log1)

/-- The frame a send method hands to `sendCommand`: the first `offset` bytes of
the object the command pointer refers to. -/
def frameOf (args : List Byte × Nat) : List Byte := args.1.take args.2

/-! ## Observations on a trace -/

/-- Number of bytes the `send` calls of a trace report as sent. -/
def sentCount : List Event → Int
  | [] => 0
  | Event.send _ _ _ _ result :: evs => (if 0 < result then result else 0) + sentCount evs
  | _ :: evs => sentCount evs

/-- Number of bytes the `recv` calls of a trace report as received. -/
def recvCount : List Event → Int
  | [] => 0
  | Event.recv _ _ _ result _ :: evs => (if 0 < result then result else 0) + recvCount evs
  | _ :: evs => recvCount evs

/-- The bytes the `recv` calls of a trace stored in the caller's memory, in
order: what the program consumed from the receive stream. -/
def received : List Event → List Byte
  | [] => []
  | Event.recv _ _ _ _ bytes :: evs => bytes ++ received evs
  | _ :: evs => received evs

/-- Number of bytes the `recv` calls of a trace asked the socket for. -/
def recvRequested : List Event → Int
  | [] => 0
  | Event.recv _ _ count _ _ :: evs => count + recvRequested evs
  | _ :: evs => recvRequested evs

/-- The caller's object after the stores of the `recv` calls of a trace. -/
def applyRecv : List Byte → List Event → List Byte
  | data, [] => data
  | data, Event.recv _ off _ _ bytes :: evs => applyRecv (writeAt data off.toNat bytes) evs
  | data, _ :: evs => applyRecv data evs

/-- The event is a call of `send`. -/
def Event.isSend : Event → Bool
  | Event.send _ _ _ _ _ => true
  | _ => false

/-- The event is a call of `recv`. -/
def Event.isRecv : Event → Bool
  | Event.recv _ _ _ _ _ => true
  | _ => false

/-- What the call returned (0 for the calls that return nothing). -/
def Event.result : Event → Int
  | Event.send _ _ _ _ result => result
  | Event.recv _ _ _ result _ => result
  | Event.socket result => result
  | Event.setsockopt _ => 0
  | Event.connect _ _ _ result => result
  | Event.close _ => 0

/-- The index in the caller's object that the data pointer of a `send` or
`recv` call has (0 for the other calls). -/
def Event.off : Event → Int
  | Event.send _ off _ _ _ => off
  | Event.recv _ off _ _ _ => off
  | _ => 0

/-- The number of bytes a `send` or `recv` call asks for (0 for the other
calls). -/
def Event.count : Event → Int
  | Event.send _ _ count _ _ => count
  | Event.recv _ _ count _ _ => count
  | _ => 0

/-- The call of `send` that the loop of `sendComplete` issues for `dataSize`
bytes of `data` when `done` bytes are away, with the result the operating system
gives after the history `log`. -/
def sendCall (env : Env) (fd : Int) (data : List Byte) (dataSize : Nat) (done : Int)
    (log : Log) : Event :=
  Event.send fd done (toInt32 ((dataSize : Int) - done))
    ((data.drop done.toNat).take (toInt32 ((dataSize : Int) - done)).toNat)
    (env.send log fd done (toInt32 ((dataSize : Int) - done))
      ((data.drop done.toNat).take (toInt32 ((dataSize : Int) - done)).toNat))

/-- The call of `recv` that the loop of `recvComplete` issues for `dataSize`
bytes when `done` bytes are here. -/
def recvCall (env : Env) (fd : Int) (dataSize : Nat) (done : Int) (log : Log) : Event :=
  Event.recv fd done (toInt32 ((dataSize : Int) - done))
    (env.recv log fd done (toInt32 ((dataSize : Int) - done))).1
    (env.recv log fd done (toInt32 ((dataSize : Int) - done))).2

/-- The trace of a run of the loop of `sendComplete` for `dataSize` bytes that
starts with `done` bytes away after the history `log`: every event is the call
of the loop at the bytes transferred so far, and the run goes on exactly while
the results are positive and the total is below `dataSize`. -/
def SendRun (env : Env) (fd : Int) (data : List Byte) (dataSize : Nat) :
    Int → Log → List Event → Prop
  | done, _, [] => (dataSize : Int) ≤ done
  | done, log, ev :: evs =>
    done < (dataSize : Int) ∧ ev = sendCall env fd data dataSize done log ∧
    (if 0 < ev.result then SendRun env fd data dataSize (done + ev.result) (log ++ [ev]) evs
     else evs = [])

/-- The trace of a run of the loop of `recvComplete`, as `SendRun`. -/
def RecvRun (env : Env) (fd : Int) (dataSize : Nat) :
    Int → Log → List Event → Prop
  | done, _, [] => (dataSize : Int) ≤ done
  | done, log, ev :: evs =>
    done < (dataSize : Int) ∧ ev = recvCall env fd dataSize done log ∧
    (if 0 < ev.result then RecvRun env fd dataSize (done + ev.result) (log ++ [ev]) evs
     else evs = [])

/-! ## Reference material for the statements -/

/-- The call of the write primitive on the not-yet-transferred remainder of
`n` bytes of `data`: the offset is the number of bytes transferred so far, the
count is `n` minus that, the bytes offered are the bytes of `data` from the
offset up to `n`. -/
def remainderSend (env : Env) (fd : Int) (data : List Byte) (n : Nat) (done : Int)
    (log : Log) : Event :=
  Event.send fd done ((n : Int) - done)
    ((data.drop done.toNat).take (n - done.toNat))
    (env.send log fd done ((n : Int) - done) ((data.drop done.toNat).take (n - done.toNat)))

/-- The call of the read primitive for the not-yet-transferred remainder of `n`
bytes: the offset is the number of bytes transferred so far, the count is `n`
minus that. -/
def remainderRecv (env : Env) (fd : Int) (n : Nat) (done : Int) (log : Log) : Event :=
  Event.recv fd done ((n : Int) - done)
    (env.recv log fd done ((n : Int) - done)).1 (env.recv log fd done ((n : Int) - done)).2

/-- The public send methods with their arguments. -/
inductive Command where
  | beginSession (systemSpec : List Byte)
  | endSession
  | beginRecording
  | endRecording
  | attention
  | synch (timeStamp : Int)
  | trigger (code : List Byte) (timeStamp msDuration : Int)
deriving DecidableEq, Repr

/-- The object and the size a send method passes to `sendCommand`. -/
def Command.args (e : Endian) (c : EGIConnection) : Command → Option (List Byte × Nat)
  | Command.beginSession systemSpec => sendBeginSessionBuffer c systemSpec
  | Command.endSession => some ([kExit], 1)
  | Command.beginRecording => some ([kBeginRecording], 1)
  | Command.endRecording => some ([kEndRecording], 1)
  | Command.attention => some ([kAttention], 1)
  | Command.synch timeStamp => sendSynchBuffer e c timeStamp
  | Command.trigger code timeStamp msDuration => sendTriggerBuffer e c code timeStamp msDuration

/-- Call of a public send method: the result, the connection object and the
history afterwards. -/
def Command.call (env : Env) (e : Endian) (c : EGIConnection) :
    Command → Log → Option (Bool × EGIConnection × Log)
  | Command.beginSession systemSpec, log => sendBeginSession env c systemSpec log
  | Command.endSession, log => (sendEndSession env c log).map fun r => (r.1, c, r.2)
  | Command.beginRecording, log => (sendBeginRecording env c log).map fun r => (r.1, c, r.2)
  | Command.endRecording, log => (sendEndRecording env c log).map fun r => (r.1, c, r.2)
  | Command.attention, log => (sendAttention env c log).map fun r => (r.1, c, r.2)
  | Command.synch timeStamp, log => sendSynch env e c timeStamp log
  | Command.trigger code timeStamp msDuration, log =>
    sendTrigger env e c code timeStamp msDuration log

/-- A peer for concrete runs: the socket accepts `sendLimit` bytes in total and
then fails; the peer answers with the bytes `reply` and then closes. -/
def mockEnv (sendLimit : Nat) (reply : List Byte) : Env where
  send := fun log _ _ count _ =>
    if sentCount log < (sendLimit : Int) then min count ((sendLimit : Int) - sentCount log)
    else -1
  recv := fun log _ _ count =>
    (((reply.drop (received log).length).take count.toNat).length,
      (reply.drop (received log).length).take count.toNat)
  socket := fun _ => 3
  connect := fun _ _ _ _ => 0

/-- A connection object with socket 3 and a zeroed command buffer. -/
def mockConnection : EGIConnection := ⟨3, List.replicate commandBufferSize 0⟩

/-- The values of a 32-bit signed integer. -/
def IsInt32 (x : Int) : Prop := -2147483648 ≤ x ∧ x ≤ 2147483647

/-- Value of an unsigned field read in the given byte order. -/
def decodeNat (e : Endian) (bs : List Byte) : Nat :=
  match e with
  | Endian.little => bs.foldr (fun b acc => b.val + 256 * acc) 0
  | Endian.big => bs.foldl (fun acc b => acc * 256 + b.val) 0

/-- Value of a 4-byte signed field read in the given byte order. -/
def decodeInt (e : Endian) (bs : List Byte) : Int := toInt32 (decodeNat e bs)

/-- Reference decoder of a begin-session frame: tag, then the 4-byte token. -/
def decodeBeginSession (frame : List Byte) : Option (Byte × List Byte) :=
  match frame with
  | tag :: rest => if rest.length = 4 then some (tag, rest) else none
  | [] => none

/-- Reference decoder of a time-synch frame: tag, then the 4-byte timestamp. -/
def decodeSynch (e : Endian) (frame : List Byte) : Option (Byte × Int) :=
  match frame with
  | tag :: rest => if rest.length = 4 then some (tag, decodeInt e rest) else none
  | [] => none

/-- The fields of an event frame. -/
structure TriggerFields where
  tag : Byte
  dataSize : Nat
  timeStamp : Int
  msDuration : Int
  code : List Byte
  padding : List Byte
deriving DecidableEq, Repr

/-- Reference decoder of an event frame: tag, 2-byte length, and a payload of
the declared length made of the 4-byte timestamp, the 4-byte duration, the
4-byte code, and padding. -/
def decodeTrigger (e : Endian) (frame : List Byte) : Option TriggerFields :=
  match frame with
  | tag :: rest =>
    let dataSize := decodeNat e (rest.take 2)
    let payload := rest.drop 2
    if payload.length = dataSize ∧ 12 ≤ dataSize then
      some { tag := tag, dataSize := dataSize,
             timeStamp := decodeInt e (payload.take 4),
             msDuration := decodeInt e ((payload.drop 4).take 4),
             code := (payload.drop 8).take 4,
             padding := payload.drop 12 }
    else none
  | [] => none

/-- The bytes a `recv` call stored (none for the other calls). -/
def Event.stored : Event → List Byte
  | Event.recv _ _ _ _ bytes => bytes
  | _ => []

/-- The effect of one call on the socket descriptors that are open: `socket`
opens the descriptor it returns (a negative result is a failure), `close`
closes one. -/
def handleStep (handles : List Int) : Event → List Int
  | Event.socket result => if 0 ≤ result then handles ++ [result] else handles
  | Event.close fd => handles.erase fd
  | _ => handles

/-- The socket descriptors that are open after a history, oldest first. -/
def openHandles (log : Log) : List Int := log.foldl handleStep []

/-- The value of `mark` after `mark = 'A' + i`. -/
def markValue (i : Nat) : Byte := ⟨('A'.toNat + i) % 256, Nat.mod_lt _ (by decide)⟩

/-- The string `"10.10.10.42"`. -/
def driverAddress : List Byte := "10.10.10.42".toList.map charByte

/-- Lines 16-22 of `main`: the iterations `i`, `i + 1`, ... of the loop, `k` of
them.  The object `mark` is one `char`; `&mark` is passed to `sendTrigger`.
The results of the calls are dropped; `sleep` is not modelled. -/
def mainLoop (env : Env) (e : Endian) :
    Nat → Nat → EGIConnection → Log → Option (EGIConnection × Log)
  | 0, _, c, log => some (c, log)
  | k + 1, i, c, log =>
    let mark := [markValue i]
    match sendAttention env c log with
    | none => none
    | some (_, log) =>
      match sendSynch env e c (i : Int) log with
      | none => none
      | some (_, c, log) =>
        match sendTrigger env e c mark (i : Int) 50 log with
        | none => none
        | some (_, c, log) => mainLoop env e k (i + 1) c log

/-- The function `main`: the history of operating-system calls at the end, or
`none` when a call leaves defined behaviour.  `memory` is what the object
`egitest` holds in its command buffer when it is constructed. -/
def main (env : Env) (e : Endian) (memory : List Byte) : Option Log :=
  let egitest := EGIConnection.new memory
  let (_, egitest, log) := connect env egitest driverAddress 55513 []
  match sendBeginSession env egitest kLittleEndian log with
  | none => none
  | some (_, egitest, log) =>
    match sendBeginRecording env egitest log with
    | none => none
    | some (_, log) =>
      match mainLoop env e 26 0 egitest log with
      | none => none
      | some (egitest, log) =>
        match sendEndRecording env egitest log with
        | none => none
        | some (_, log) =>
          match sendEndSession env egitest log with
          | none => none
          | some (_, log) => some (disconnect egitest log).2

/-! ## Arithmetic of the casts -/

theorem toInt32_eq (x : Int) (h0 : 0 ≤ x) (h1 : x ≤ (INT_MAX : Int)) : toInt32 x = x := by
  unfold toInt32
  unfold INT_MAX at h1
  omega

theorem toInt32_le (x : Int) (h : 0 < x) : toInt32 x ≤ x := by
  unfold toInt32
  omega

theorem count_eq (n : Nat) (hn : n ≤ INT_MAX) (d : Int) (hd : 0 ≤ d) (h : d < (n : Int)) :
    toInt32 ((n : Int) - d) = (n : Int) - d := by
  have : (n : Int) ≤ (INT_MAX : Int) := by exact_mod_cast hn
  exact toInt32_eq _ (by omega) (by omega)

/-! ## The transfer loops and their traces -/

theorem sendLoop_run (env : Env) (fd : Int) (data : List Byte) (n : Nat) :
    ∀ (fuel : Nat) (d : Int) (log : Log), 0 ≤ d → (n : Int) ≤ d + fuel →
      ∃ evs, sendLoop env fd data n fuel d log = some (d + sentCount evs, log ++ evs) ∧
        SendRun env fd data n d log evs := by
  intro fuel
  induction fuel with
  | zero =>
    intro d log _ hf
    have h : ¬ d < (n : Int) := by omega
    exact ⟨[], by simp [sendLoop, h, sentCount], by simp only [SendRun]; omega⟩
  | succ k ih =>
    intro d log hd hf
    by_cases h : d < (n : Int)
    · by_cases hr : 0 < (sendCall env fd data n d log).result
      · obtain ⟨evs, h1, h2⟩ := ih (d + (sendCall env fd data n d log).result)
          (log ++ [sendCall env fd data n d log]) (by omega) (by push_cast at hf; omega)
        refine ⟨sendCall env fd data n d log :: evs, ?_, ?_⟩
        · simp only [sendCall, Event.result] at hr h1
          simp only [sendLoop, h, if_true, gt_iff_lt, hr, h1, sentCount, sendCall]
          simp [add_assoc]
        · simp only [SendRun, hr, if_true]
          exact ⟨h, trivial, h2⟩
      · refine ⟨[sendCall env fd data n d log], ?_, ?_⟩
        · simp only [sendCall, Event.result] at hr
          simp only [sendLoop, h, if_true, gt_iff_lt, hr, if_false, sentCount, sendCall]
          simp
        · simp only [SendRun, hr, if_false]
          exact ⟨h, trivial, trivial⟩
    · exact ⟨[], by simp [sendLoop, h, sentCount], by simp only [SendRun]; omega⟩

theorem recvLoop_run (env : Env) (fd : Int) (n : Nat) :
    ∀ (fuel : Nat) (d : Int) (data : List Byte) (log : Log), 0 ≤ d → (n : Int) ≤ d + fuel →
      ∃ evs, recvLoop env fd n fuel d data log
          = some (d + recvCount evs, applyRecv data evs, log ++ evs) ∧
        RecvRun env fd n d log evs := by
  intro fuel
  induction fuel with
  | zero =>
    intro d data log _ hf
    have h : ¬ d < (n : Int) := by omega
    exact ⟨[], by simp [recvLoop, h, recvCount, applyRecv], by simp only [RecvRun]; omega⟩
  | succ k ih =>
    intro d data log hd hf
    by_cases h : d < (n : Int)
    · by_cases hr : 0 < (recvCall env fd n d log).result
      · obtain ⟨evs, h1, h2⟩ := ih (d + (recvCall env fd n d log).result)
          (writeAt data d.toNat (env.recv log fd d (toInt32 ((n : Int) - d))).2)
          (log ++ [recvCall env fd n d log]) (by omega) (by push_cast at hf; omega)
        refine ⟨recvCall env fd n d log :: evs, ?_, ?_⟩
        · simp only [recvCall, Event.result] at hr h1
          simp only [recvLoop, h, if_true, gt_iff_lt, hr, h1, recvCount, recvCall, applyRecv]
          simp [add_assoc]
        · simp only [RecvRun, hr, if_true]
          exact ⟨h, trivial, h2⟩
      · refine ⟨[recvCall env fd n d log], ?_, ?_⟩
        · simp only [recvCall, Event.result] at hr
          simp only [recvLoop, h, if_true, gt_iff_lt, hr, if_false, recvCount, recvCall,
            applyRecv]
          simp
        · simp only [RecvRun, hr, if_false]
          exact ⟨h, trivial, trivial⟩
    · exact ⟨[], by simp [recvLoop, h, recvCount, applyRecv], by simp only [RecvRun]; omega⟩

theorem sendComplete_run (env : Env) (fd : Int) (data : List Byte) (n : Nat) (log : Log) :
    ∃ evs, sendComplete env fd data n log = some ((sentCount evs).toNat, log ++ evs) ∧
      SendRun env fd data n 0 log evs := by
  obtain ⟨evs, h1, h2⟩ := sendLoop_run env fd data n n 0 log (le_refl _) (by omega)
  exact ⟨evs, by simp [sendComplete, h1], h2⟩

theorem recvComplete_run (env : Env) (fd : Int) (data : List Byte) (n : Nat) (log : Log) :
    ∃ evs, recvComplete env fd data n log
        = some ((recvCount evs).toNat, applyRecv data evs, log ++ evs) ∧
      RecvRun env fd n 0 log evs := by
  obtain ⟨evs, h1, h2⟩ := recvLoop_run env fd n n 0 data log (le_refl _) (by omega)
  exact ⟨evs, by simp [recvComplete, h1], h2⟩

/-! ## Memory -/

theorem writeAt_length (bs : List Byte) : ∀ (dst : List Byte) (off : Nat),
    (writeAt dst off bs).length = dst.length := by
  induction bs with
  | nil => intro dst off; rfl
  | cons b bs ih => intro dst off; simp [writeAt, ih]

theorem writeAt_eq (bs : List Byte) : ∀ (dst : List Byte) (off : Nat),
    off + bs.length ≤ dst.length →
    writeAt dst off bs = dst.take off ++ bs ++ dst.drop (off + bs.length) := by
  induction bs with
  | nil => intro dst off _; simp [writeAt]
  | cons b bs ih =>
    intro dst off h
    simp only [List.length_cons] at h
    have hlt : off < dst.length := by omega
    rw [writeAt, ih (dst.set off b) (off + 1) (by simp; omega)]
    rw [List.set_eq_take_append_cons_drop, if_pos hlt]
    have h1 : (List.take off dst ++ b :: List.drop (off + 1) dst).take (off + 1)
        = List.take off dst ++ [b] := by
      rw [List.take_append_eq_append_take]
      simp [List.length_take, Nat.min_eq_left (le_of_lt hlt)]
    have h2 : (List.take off dst ++ b :: List.drop (off + 1) dst).drop (off + 1 + bs.length)
        = List.drop (off + (bs.length + 1)) dst := by
      rw [List.drop_append_eq_append_drop]
      simp [List.length_take, Nat.min_eq_left (le_of_lt hlt)]
      have : off + 1 + bs.length - off = bs.length + 1 := by omega
      rw [List.drop_of_length_le (by simp; omega), this]
      simp [List.drop_drop]
      congr 1; omega
    rw [h1, h2]
    simp

/-! ## Observations: algebra -/

theorem sentCount_append (a b : List Event) : sentCount (a ++ b) = sentCount a + sentCount b := by
  induction a with
  | nil => simp [sentCount]
  | cons e a ih => cases e <;> simp [sentCount, ih, add_assoc]

theorem recvCount_append (a b : List Event) : recvCount (a ++ b) = recvCount a + recvCount b := by
  induction a with
  | nil => simp [recvCount]
  | cons e a ih => cases e <;> simp [recvCount, ih, add_assoc]

theorem received_append (a b : List Event) : received (a ++ b) = received a ++ received b := by
  induction a with
  | nil => simp [received]
  | cons e a ih => cases e <;> simp [received, ih]

theorem recvRequested_append (a b : List Event) :
    recvRequested (a ++ b) = recvRequested a + recvRequested b := by
  induction a with
  | nil => simp [recvRequested]
  | cons e a ih => cases e <;> simp [recvRequested, ih, add_assoc]

theorem sentCount_nonneg (evs : List Event) : 0 ≤ sentCount evs := by
  induction evs with
  | nil => simp [sentCount]
  | cons e evs ih =>
    cases e <;> simp only [sentCount] <;> try exact ih
    split <;> omega

theorem recvCount_nonneg (evs : List Event) : 0 ≤ recvCount evs := by
  induction evs with
  | nil => simp [recvCount]
  | cons e evs ih =>
    cases e <;> simp only [recvCount] <;> try exact ih
    split <;> omega

/-- A trace of `send` calls only receives nothing. -/
theorem no_recv_of_isSend (evs : List Event) (h : ∀ e ∈ evs, e.isSend = true) :
    received evs = [] ∧ recvCount evs = 0 ∧ recvRequested evs = 0 := by
  induction evs with
  | nil => simp [received, recvCount, recvRequested]
  | cons e evs ih =>
    have he := h e (List.mem_cons_self _ _)
    have ht := ih (fun x hx => h x (List.mem_cons_of_mem _ hx))
    cases e <;> simp [Event.isSend] at he
    simpa [received, recvCount, recvRequested] using ht

/-- A trace of `recv` calls only sends nothing. -/
theorem no_send_of_isRecv (evs : List Event) (h : ∀ e ∈ evs, e.isRecv = true) :
    sentCount evs = 0 := by
  induction evs with
  | nil => simp [sentCount]
  | cons e evs ih =>
    have he := h e (List.mem_cons_self _ _)
    have ht := ih (fun x hx => h x (List.mem_cons_of_mem _ hx))
    cases e <;> simp [Event.isRecv] at he
    simpa [sentCount] using ht

theorem sendRun_isSend (env : Env) (fd : Int) (data : List Byte) (n : Nat) (evs : List Event) :
    ∀ (d : Int) (log : Log), SendRun env fd data n d log evs → ∀ e ∈ evs, e.isSend = true := by
  induction evs with
  | nil => intro d log _ e he; simp at he
  | cons ev evs ih =>
    intro d log h e he
    simp only [SendRun] at h
    obtain ⟨_, hev, hrest⟩ := h
    rcases List.mem_cons.mp he with rfl | hmem
    · rw [hev]; rfl
    · by_cases hr : 0 < ev.result
      · rw [if_pos hr] at hrest
        exact ih _ _ hrest e hmem
      · rw [if_neg hr] at hrest
        rw [hrest] at hmem; simp at hmem

theorem recvRun_isRecv (env : Env) (fd : Int) (n : Nat) (evs : List Event) :
    ∀ (d : Int) (log : Log), RecvRun env fd n d log evs → ∀ e ∈ evs, e.isRecv = true := by
  induction evs with
  | nil => intro d log _ e he; simp at he
  | cons ev evs ih =>
    intro d log h e he
    simp only [RecvRun] at h
    obtain ⟨_, hev, hrest⟩ := h
    rcases List.mem_cons.mp he with rfl | hmem
    · rw [hev]; rfl
    · by_cases hr : 0 < ev.result
      · rw [if_pos hr] at hrest
        exact ih _ _ hrest e hmem
      · rw [if_neg hr] at hrest
        rw [hrest] at hmem; simp at hmem

/-- The run is complete exactly when no call returned a non-positive result. -/
theorem sendRun_full_iff (env : Env) (fd : Int) (data : List Byte) (n : Nat)
    (evs : List Event) : ∀ (d : Int) (log : Log), SendRun env fd data n d log evs →
      ((n : Int) ≤ d + sentCount evs ↔ ∀ e ∈ evs, 0 < e.result) := by
  induction evs with
  | nil => intro d log h; simp only [SendRun] at h; simp [sentCount, h]
  | cons ev evs ih =>
    intro d log h
    simp only [SendRun] at h
    obtain ⟨hlt, hev, hrest⟩ := h
    by_cases hr : 0 < ev.result
    · rw [if_pos hr] at hrest
      have := ih _ _ hrest
      have hs : sentCount (ev :: evs) = ev.result + sentCount evs := by
        rw [hev] at hr ⊢; simp only [sendCall, Event.result] at hr; simp [sentCount, sendCall, Event.result, hr]
      rw [hs, ← add_assoc, this]
      simp [hr]
    · rw [if_neg hr] at hrest
      subst hrest
      have hs : sentCount [ev] = 0 := by
        rw [hev] at hr ⊢; simp only [sendCall, Event.result] at hr; simp [sentCount, sendCall, hr]
      rw [hs]
      simp only [List.mem_singleton, forall_eq]
      constructor
      · intro h; omega
      · intro h; exact absurd h hr

theorem recvRun_full_iff (env : Env) (fd : Int) (n : Nat)
    (evs : List Event) : ∀ (d : Int) (log : Log), RecvRun env fd n d log evs →
      ((n : Int) ≤ d + recvCount evs ↔ ∀ e ∈ evs, 0 < e.result) := by
  induction evs with
  | nil => intro d log h; simp only [RecvRun] at h; simp [recvCount, h]
  | cons ev evs ih =>
    intro d log h
    simp only [RecvRun] at h
    obtain ⟨hlt, hev, hrest⟩ := h
    by_cases hr : 0 < ev.result
    · rw [if_pos hr] at hrest
      have := ih _ _ hrest
      have hs : recvCount (ev :: evs) = ev.result + recvCount evs := by
        rw [hev] at hr ⊢; simp only [recvCall, Event.result] at hr; simp [recvCount, recvCall, Event.result, hr]
      rw [hs, ← add_assoc, this]
      simp [hr]
    · rw [if_neg hr] at hrest
      subst hrest
      have hs : recvCount [ev] = 0 := by
        rw [hev] at hr ⊢; simp only [recvCall, Event.result] at hr; simp [recvCount, recvCall, hr]
      rw [hs]
      simp only [List.mem_singleton, forall_eq]
      constructor
      · intro h; omega
      · intro h; exact absurd h hr

/-- With a well-behaved `send` the total never exceeds the requested size. -/
theorem sendRun_le (env : Env) (hwb : env.WellBehaved) (fd : Int) (data : List Byte) (n : Nat)
    (evs : List Event) : ∀ (d : Int) (log : Log), SendRun env fd data n d log evs →
      d ≤ (n : Int) → d + sentCount evs ≤ (n : Int) := by
  induction evs with
  | nil => intro d log _ hd; simpa [sentCount] using hd
  | cons ev evs ih =>
    intro d log h hd
    simp only [SendRun] at h
    obtain ⟨hlt, hev, hrest⟩ := h
    have hle : 0 < ev.result → ev.result ≤ (n : Int) - d := by
      rw [hev]; exact fun h => le_trans (hwb.1 _ _ _ _ _ h) (toInt32_le _ (by omega))
    by_cases hr : 0 < ev.result
    · rw [if_pos hr] at hrest
      have hle := hle hr
      have := ih _ _ hrest (by omega)
      have hs : sentCount (ev :: evs) = ev.result + sentCount evs := by
        rw [hev] at hr ⊢; simp only [sendCall, Event.result] at hr; simp [sentCount, sendCall, Event.result, hr]
      rw [hs]; omega
    · rw [if_neg hr] at hrest
      subst hrest
      have hs : sentCount [ev] = 0 := by
        rw [hev] at hr ⊢; simp only [sendCall, Event.result] at hr; simp [sentCount, sendCall, hr]
      rw [hs]; omega

/-- With a well-behaved `recv` the total never exceeds the requested size, and
the bytes stored are as many as the calls report. -/
theorem recvRun_le (env : Env) (hwb : env.WellBehaved) (fd : Int) (n : Nat)
    (evs : List Event) : ∀ (d : Int) (log : Log), RecvRun env fd n d log evs →
      d ≤ (n : Int) →
      d + recvCount evs ≤ (n : Int) ∧ ((received evs).length : Int) = recvCount evs := by
  induction evs with
  | nil => intro d log _ hd; simpa [recvCount, received] using hd
  | cons ev evs ih =>
    intro d log h hd
    simp only [RecvRun] at h
    obtain ⟨hlt, hev, hrest⟩ := h
    have hle : 0 < ev.result → ev.result ≤ (n : Int) - d := by
      rw [hev]; exact fun h => le_trans ((hwb.2 _ _ _ _).1 h) (toInt32_le _ (by omega))
    have hlen := (hwb.2 log fd d (toInt32 ((n : Int) - d))).2
    by_cases hr : 0 < ev.result
    · rw [if_pos hr] at hrest
      have := ih _ _ hrest (by omega)
      have hle := hle hr
      subst hev
      simp only [recvCall, Event.result] at hr hle this
      simp only [recvCall, recvCount, received, hr, if_true, List.length_append, Nat.cast_add, hlen]
      omega
    · rw [if_neg hr] at hrest
      subst hrest
      subst hev
      simp only [recvCall, Event.result] at hr
      simp only [recvCall, recvCount, received, hr, if_false, List.length_append, Nat.cast_add, hlen]
      simp
      omega

/-- What `sendComplete` does with a well-behaved `send`. -/
theorem sendComplete_wb (env : Env) (hwb : env.WellBehaved) (fd : Int) (data : List Byte)
    (n : Nat) (log : Log) :
    ∃ evs sent, sendComplete env fd data n log = some (sent, log ++ evs) ∧
      (sent : Int) = sentCount evs ∧ sent ≤ n ∧
      (∀ e ∈ evs, e.isSend = true) ∧ (sent = n ↔ ∀ e ∈ evs, 0 < e.result) ∧
      SendRun env fd data n 0 log evs := by
  obtain ⟨evs, h1, h2⟩ := sendComplete_run env fd data n log
  have hle := sendRun_le env hwb fd data n evs 0 log h2 (by omega)
  have hfull := sendRun_full_iff env fd data n evs 0 log h2
  have hnn := sentCount_nonneg evs
  refine ⟨evs, (sentCount evs).toNat, h1, by omega, by omega,
    sendRun_isSend env fd data n evs 0 log h2, ?_, h2⟩
  rw [← hfull]
  omega

/-- What `recvComplete` does with a well-behaved `recv`. -/
theorem recvComplete_wb (env : Env) (hwb : env.WellBehaved) (fd : Int) (data : List Byte)
    (n : Nat) (log : Log) :
    ∃ evs, recvComplete env fd data n log
        = some ((received evs).length, applyRecv data evs, log ++ evs) ∧
      (received evs).length ≤ n ∧
      (∀ e ∈ evs, e.isRecv = true) ∧
      ((received evs).length = n ↔ ∀ e ∈ evs, 0 < e.result) ∧
      RecvRun env fd n 0 log evs := by
  obtain ⟨evs, h1, h2⟩ := recvComplete_run env fd data n log
  have hle := recvRun_le env hwb fd n evs 0 log h2 (by omega)
  have hfull := recvRun_full_iff env fd n evs 0 log h2
  have hnn := recvCount_nonneg evs
  have hk : (recvCount evs).toNat = (received evs).length := by omega
  refine ⟨evs, by rw [h1, hk], by omega, recvRun_isRecv env fd n evs 0 log h2, ?_, h2⟩
  rw [← hfull]
  omega

/-- The object `responseCode` after a complete read holds the byte received. -/
theorem applyRecv_one (env : Env) (hwb : env.WellBehaved) (fd : Int) (log : Log)
    (evs : List Event) (h : RecvRun env fd 1 0 log evs) (hlen : (received evs).length = 1) :
    applyRecv [0] evs = received evs := by
  cases evs with
  | nil => simp [received] at hlen
  | cons ev evs =>
    simp only [RecvRun] at h
    obtain ⟨_, hev, hrest⟩ := h
    have hle := (hwb.2 log fd 0 1).1
    have hbytes := (hwb.2 log fd 0 1).2
    subst hev
    have hone : toInt32 1 = 1 := by decide
    simp only [recvCall, Event.result, Nat.cast_one, sub_zero, hone] at hrest hlen ⊢
    simp only [received, List.length_append] at hlen
    by_cases hr : 0 < (env.recv log fd 0 1).1
    · rw [if_pos hr] at hrest
      have hle := hle hr
      have hnil : evs = [] := by
        cases evs with
        | nil => rfl
        | cons e2 evs2 =>
          simp only [RecvRun] at hrest
          omega
      subst hnil
      simp only [applyRecv, received, List.append_nil]
      rw [writeAt_eq _ _ _ (by simp; omega)]
      simp
      omega
    · rw [if_neg hr] at hrest
      subst hrest
      simp only [received, List.length_nil] at hlen
      omega

/-! ## The command exchange -/

/-- Once `didSendCommand` is false nothing more is received and the exchange fails. -/
theorem recvResponseData_false (env : Env) (fd : Int) (c : Byte) (log : Log) :
    recvResponseData env fd false c log = some (false, log) := by
  unfold recvResponseData
  by_cases h1 : c = kQuerySuccess
  · simp [h1]
  · by_cases h2 : c = kFailure
    · simp [h1, h2]
    · by_cases h3 : c = kSuccess <;> simp [h1, h2, h3]

/-- Reading the response code with a well-behaved `recv`. -/
theorem recvResponseCode_true (env : Env) (hwb : env.WellBehaved) (fd : Int) (log : Log) :
    ∃ evs obj, recvResponseCode env fd true log
        = some (decide ((received evs).length = 1), obj, log ++ evs) ∧
      (received evs).length ≤ 1 ∧ (∀ e ∈ evs, e.isRecv = true) ∧
      ((received evs).length = 1 ↔ ∀ e ∈ evs, 0 < e.result) ∧
      ((received evs).length = 1 → obj = received evs) := by
  obtain ⟨evs, h1, h2, h3, h4, h5⟩ := recvComplete_wb env hwb fd [0] 1 log
  refine ⟨evs, applyRecv [0] evs, ?_, h2, h3, h4, applyRecv_one env hwb fd log evs h5⟩
  unfold recvResponseCode
  rw [if_pos rfl, h1]
  by_cases hk : (received evs).length = 1 <;> simp [hk]

/-- Reading the additional response data with a well-behaved `recv`. -/
theorem recvResponseData_true (env : Env) (hwb : env.WellBehaved) (fd : Int) (c : Byte)
    (log : Log) :
    ∃ evs b, recvResponseData env fd true c log = some (b, log ++ evs) ∧
      (∀ e ∈ evs, e.isRecv = true) ∧
      (c = kQuerySuccess → (received evs).length ≤ 1 ∧ (b = true ↔ (received evs).length = 1) ∧
          ((received evs).length = 1 ↔ ∀ e ∈ evs, 0 < e.result)) ∧
      (c = kFailure → (received evs).length ≤ 2 ∧ (b = true ↔ (received evs).length = 2) ∧
          ((received evs).length = 2 ↔ ∀ e ∈ evs, 0 < e.result)) ∧
      (c ≠ kQuerySuccess → c ≠ kFailure → evs = [] ∧ (b = true ↔ c = kSuccess)) := by
  have hIF : kQuerySuccess ≠ kFailure := by decide
  unfold recvResponseData
  by_cases h1 : c = kQuerySuccess
  · obtain ⟨evs, e1, e2, e3, e4, _⟩ := recvComplete_wb env hwb fd [0] 1 log
    refine ⟨evs, decide ((received evs).length = 1), ?_, e3, fun _ => ⟨e2, by simp, e4⟩,
      fun h => absurd (h1.symm.trans h) hIF, fun h => absurd h1 h⟩
    rw [if_pos h1, if_pos rfl, e1]
    by_cases hk : (received evs).length = 1 <;> simp [hk]
  · by_cases h2 : c = kFailure
    · obtain ⟨evs, e1, e2, e3, e4, _⟩ := recvComplete_wb env hwb fd [0, 0] 2 log
      refine ⟨evs, decide ((received evs).length = 2), ?_, e3, fun h => absurd h h1,
        fun _ => ⟨e2, by simp, e4⟩, fun _ h => absurd h2 h⟩
      rw [if_neg h1, if_pos h2, if_pos rfl, e1]
      by_cases hk : (received evs).length = 2 <;> simp [hk]
    · by_cases h3 : c = kSuccess
      · exact ⟨[], true, by rw [if_neg h1, if_neg h2]; simp [h3], by simp, fun h => absurd h h1,
          fun h => absurd h h2, fun _ _ => ⟨rfl, by simp [h3]⟩⟩
      · exact ⟨[], false, by simp [h1, h2, h3], by simp, fun h => absurd h h1,
          fun h => absurd h h2, fun _ _ => ⟨rfl, by simp [h3]⟩⟩

/-- The whole exchange with well-behaved primitives: the trace is the calls of
`sendComplete` followed by the `recv` calls for the response, and the result is
determined by the bytes received. -/
theorem sendCommand_exchange (env : Env) (hwb : env.WellBehaved) (fd : Int)
    (data : List Byte) (size : Nat) (log : Log) :
    ∃ evs1 sent evs2 b,
      sendComplete env fd data size log = some (sent, log ++ evs1) ∧
      (sent : Int) = sentCount evs1 ∧ sent ≤ size ∧ (∀ e ∈ evs1, e.isSend = true) ∧
      (sent = size ↔ ∀ e ∈ evs1, 0 < e.result) ∧
      (∀ e ∈ evs2, e.isRecv = true) ∧
      sendCommand env fd (some data) size log = some (b, log ++ (evs1 ++ evs2)) ∧
      (sent ≠ size → evs2 = [] ∧ b = false) ∧
      (sent = size →
        (received evs2 = [] ∧ b = false ∧ ¬ (∀ e ∈ evs2, 0 < e.result)) ∨
        (∃ c rest, received evs2 = c :: rest ∧
          (c = kQuerySuccess → rest.length ≤ 1 ∧ (b = true ↔ rest.length = 1) ∧
            (rest.length = 1 ↔ ∀ e ∈ evs2, 0 < e.result)) ∧
          (c = kFailure → rest.length ≤ 2 ∧ (b = true ↔ rest.length = 2) ∧
            (rest.length = 2 ↔ ∀ e ∈ evs2, 0 < e.result)) ∧
          (c ≠ kQuerySuccess → c ≠ kFailure →
            rest = [] ∧ (b = true ↔ c = kSuccess) ∧ ∀ e ∈ evs2, 0 < e.result))) := by
  obtain ⟨evs1, sent, hsend, hcount, hle, hs1, hfull, _⟩ :=
    sendComplete_wb env hwb fd data size log
  by_cases hs : sent = size
  · obtain ⟨evsA, obj, hcode, hleA, hrA, hfullA, hobj⟩ :=
      recvResponseCode_true env hwb fd (log ++ evs1)
    by_cases hk : (received evsA).length = 1
    · obtain ⟨c, hc⟩ : ∃ c, received evsA = [c] := List.length_eq_one.mp hk
      have hobj2 : charValue obj = c := by rw [hobj hk, hc]; rfl
      obtain ⟨evsB, b, hdata, hrB, hI, hF, hO⟩ :=
        recvResponseData_true env hwb fd c (log ++ evs1 ++ evsA)
      have hposA := hfullA.mp hk
      have hpos : (∀ e ∈ evsA ++ evsB, 0 < e.result) ↔ ∀ e ∈ evsB, 0 < e.result := by
        rw [List.forall_mem_append]
        exact ⟨fun h => h.2, fun h => ⟨hposA, h⟩⟩
      refine ⟨evs1, sent, evsA ++ evsB, b, hsend, hcount, hle, hs1, hfull, ?_, ?_,
        fun h => absurd hs h, fun _ => Or.inr ⟨c, received evsB, ?_, ?_, ?_, ?_⟩⟩
      · intro e he
        rcases List.mem_append.mp he with h | h
        · exact hrA e h
        · exact hrB e h
      · unfold sendCommand
        simp only [hsend, hs, ne_eq, not_true_eq_false, if_false, hcode, hk, decide_True,
          hobj2, hdata]
        simp
      · rw [received_append, hc]; rfl
      · intro h; rw [hpos]; exact hI h
      · intro h; rw [hpos]; exact hF h
      · intro h1 h2
        obtain ⟨e1, e2⟩ := hO h1 h2
        refine ⟨by rw [e1]; rfl, e2, ?_⟩
        rw [hpos, e1]; simp
    · have h0 : received evsA = [] := by
        apply List.length_eq_zero.mp; omega
      refine ⟨evs1, sent, evsA, false, hsend, hcount, hle, hs1, hfull, hrA, ?_,
        fun h => absurd hs h, fun _ => Or.inl ⟨h0, rfl, fun h => hk (hfullA.mpr h)⟩⟩
      unfold sendCommand
      simp only [hsend, hs, ne_eq, not_true_eq_false, if_false, hcode, hk, decide_False,
        recvResponseData_false]
      simp
  · refine ⟨evs1, sent, [], false, hsend, hcount, hle, hs1, hfull, by simp, ?_,
      fun _ => ⟨rfl, rfl⟩, fun h => absurd h hs⟩
    unfold sendCommand
    simp only [hsend, hs, ne_eq, not_false_eq_true, if_true, recvResponseCode,
      Bool.false_eq_true, if_false, recvResponseData_false, List.append_nil]

/-! ## The mock peer -/

theorem mockEnv_wellBehaved (sendLimit : Nat) (reply : List Byte) :
    (mockEnv sendLimit reply).WellBehaved := by
  constructor
  · intro log fd off count payload h
    simp only [mockEnv] at h ⊢
    split
    · exact min_le_left _ _
    · rename_i hlt; rw [if_neg hlt] at h; omega
  · intro log fd off count
    simp only [mockEnv]
    refine ⟨fun h => ?_, by omega⟩
    have h1 : ((reply.drop (received log).length).take count.toNat).length ≤ count.toNat := by
      rw [List.length_take]; exact min_le_left _ _
    omega

/-- In an exchange the bytes received are those of the `recv` calls after the
send loop. -/
theorem received_exchange (evs1 evs2 : List Event) (h : ∀ e ∈ evs1, e.isSend = true) :
    received (evs1 ++ evs2) = received evs2 := by
  rw [received_append, (no_recv_of_isSend evs1 h).1]; rfl

theorem sentCount_exchange (evs1 evs2 : List Event) (h : ∀ e ∈ evs2, e.isRecv = true) :
    sentCount (evs1 ++ evs2) = sentCount evs1 := by
  rw [sentCount_append, no_send_of_isRecv evs2 h]; simp

/-! ## Claims -/

/-- C1: for every non-null frame and every behaviour of well-behaved primitives,
`sendCommand` returns false if and only if `sendComplete` sent fewer bytes than
the frame length, or no response-code byte was received, or the response code
received is none of `'I'`, `'Z'`, `'F'`, or the response code is `'I'` or `'F'`
and fewer than 1 resp. 2 bytes were received after it. -/
theorem sendCommand_false_iff (env : Env) (hwb : env.WellBehaved) (fd : Int)
    (command : List Byte) (commandSize : Nat) (log : Log) :
    ∃ sent log1 b evs,
      sendComplete env fd command commandSize log = some (sent, log1) ∧
      sendCommand env fd (some command) commandSize log = some (b, log ++ evs) ∧
      (b = false ↔
        sent < commandSize ∨
        received evs = [] ∨
        (∃ c rest, received evs = c :: rest ∧
          c ≠ kQuerySuccess ∧ c ≠ kSuccess ∧ c ≠ kFailure) ∨
        (∃ rest, received evs = kQuerySuccess :: rest ∧ rest.length < 1) ∨
        (∃ rest, received evs = kFailure :: rest ∧ rest.length < 2)) := by
  obtain ⟨evs1, sent, evs2, b, hsend, _, hle, hs1, _, _, hcmd, hshort, hfull⟩ :=
    sendCommand_exchange env hwb fd command commandSize log
  have hIF : kQuerySuccess ≠ kFailure := by decide
  have hIZ : kQuerySuccess ≠ kSuccess := by decide
  have hFZ : kFailure ≠ kSuccess := by decide
  refine ⟨sent, log ++ evs1, b, evs1 ++ evs2, hsend, hcmd, ?_⟩
  rw [received_exchange evs1 evs2 hs1]
  by_cases hs : sent = commandSize
  · rcases hfull hs with ⟨h0, hb, _⟩ | ⟨c, rest, hrec, hI, hF, hO⟩
    · simp [h0, hb]
    · rw [hrec]
      by_cases hcI : c = kQuerySuccess
      · obtain ⟨h1, h2, _⟩ := hI hcI
        subst hcI
        have hb : b = false ↔ rest.length < 1 := by
          rw [← Bool.not_eq_true, h2]; omega
        rw [hb]
        simp [hs, hIF, hIZ]
      · by_cases hcF : c = kFailure
        · obtain ⟨h1, h2, _⟩ := hF hcF
          subst hcF
          have hb : b = false ↔ rest.length < 2 := by
            rw [← Bool.not_eq_true, h2]; omega
          rw [hb]
          simp [hs, hIF.symm, hFZ]
        · obtain ⟨_, h2, _⟩ := hO hcI hcF
          have hb : b = false ↔ c ≠ kSuccess := by
            rw [← Bool.not_eq_true, h2]
          rw [hb]
          simp [hs, hcI, hcF]
  · have hlt : sent < commandSize := by omega
    simp [(hshort hs).2, hlt]

/-- Witness of C1: a peer that answers `'Z'`. -/
theorem sendCommand_false_iff_witness :
    (mockEnv 100 [kSuccess]).WellBehaved ∧
    ∃ sent log1 b evs,
      sendComplete (mockEnv 100 [kSuccess]) 3 [kAttention] 1 [] = some (sent, log1) ∧
      sendCommand (mockEnv 100 [kSuccess]) 3 (some [kAttention]) 1 [] = some (b, [] ++ evs) ∧
      (b = false ↔
        sent < 1 ∨
        received evs = [] ∨
        (∃ c rest, received evs = c :: rest ∧
          c ≠ kQuerySuccess ∧ c ≠ kSuccess ∧ c ≠ kFailure) ∨
        (∃ rest, received evs = kQuerySuccess :: rest ∧ rest.length < 1) ∨
        (∃ rest, received evs = kFailure :: rest ∧ rest.length < 2)) :=
  ⟨mockEnv_wellBehaved 100 [kSuccess],
    sendCommand_false_iff (mockEnv 100 [kSuccess]) (mockEnv_wellBehaved 100 [kSuccess]) 3
      [kAttention] 1 []⟩

theorem isRecv_of_isSend (e : Event) (h : e.isSend = true) : e.isRecv = false := by
  cases e <;> first | rfl | simp [Event.isSend] at h

/-- Every public send method is one call of `sendCommand` on its frame. -/
theorem Command.call_eq (env : Env) (e : Endian) (c : EGIConnection) (m : Command) (log : Log) :
    (m.call env e c log).map (fun r => (r.1, r.2.2))
      = (m.args e c).bind fun a => sendCommand env c.m_socket (some a.1) a.2 log := by
  cases m with
  | beginSession systemSpec =>
    simp only [Command.call, Command.args, sendBeginSession]
    cases sendBeginSessionBuffer c systemSpec with
    | none => rfl
    | some a =>
      obtain ⟨buf, size⟩ := a
      simp only [Option.some_bind]
      cases sendCommand env c.m_socket (some buf) size log <;> rfl
  | synch timeStamp =>
    simp only [Command.call, Command.args, sendSynch]
    cases sendSynchBuffer e c timeStamp with
    | none => rfl
    | some a =>
      obtain ⟨buf, size⟩ := a
      simp only [Option.some_bind]
      cases sendCommand env c.m_socket (some buf) size log <;> rfl
  | trigger code timeStamp msDuration =>
    simp only [Command.call, Command.args, sendTrigger]
    cases sendTriggerBuffer e c code timeStamp msDuration with
    | none => rfl
    | some a =>
      obtain ⟨buf, size⟩ := a
      simp only [Option.some_bind]
      cases sendCommand env c.m_socket (some buf) size log <;> rfl
  | endSession =>
    simp only [Command.call, Command.args, sendEndSession, Option.some_bind]
    cases sendCommand env c.m_socket (some [kExit]) 1 log <;> rfl
  | beginRecording =>
    simp only [Command.call, Command.args, sendBeginRecording, Option.some_bind]
    cases sendCommand env c.m_socket (some [kBeginRecording]) 1 log <;> rfl
  | endRecording =>
    simp only [Command.call, Command.args, sendEndRecording, Option.some_bind]
    cases sendCommand env c.m_socket (some [kEndRecording]) 1 log <;> rfl
  | attention =>
    simp only [Command.call, Command.args, sendAttention, Option.some_bind]
    cases sendCommand env c.m_socket (some [kAttention]) 1 log <;> rfl

/-- A public send method returns what `sendCommand` returns on its frame. -/
theorem Command.call_of_sendCommand (env : Env) (e : Endian) (c : EGIConnection) (m : Command)
    (log : Log) (buf : List Byte) (size : Nat) (hargs : m.args e c = some (buf, size))
    (b : Bool) (log1 : Log)
    (h : sendCommand env c.m_socket (some buf) size log = some (b, log1)) :
    ∃ c1, m.call env e c log = some (b, c1, log1) := by
  have heq := Command.call_eq env e c m log
  rw [hargs, Option.some_bind, h] at heq
  cases hcall : m.call env e c log with
  | none => rw [hcall] at heq; simp at heq
  | some r =>
    obtain ⟨b1, c1, l1⟩ := r
    rw [hcall] at heq
    simp only [Option.map_some', Option.some.injEq, Prod.mk.injEq] at heq
    exact ⟨c1, by rw [heq.1, heq.2]⟩

/-- C2, counterexample: the frame of `sendBeginRecording` is fully transmitted,
the peer answers `'F'` and the complete error code 0x0001, and the method
returns true. -/
theorem sendBeginRecording_failure_response :
    sendBeginRecording (mockEnv 100 [kFailure, 0, 1]) mockConnection []
      = some (true, [Event.send 3 0 1 [kBeginRecording] 1, Event.recv 3 0 1 1 [kFailure],
          Event.recv 3 0 2 2 [0, 1]]) := by
  decide

/-- C2, amended: for every public send method and every 2-byte error code, if
the frame is fully transmitted and the peer answers `'F'` followed by the
complete error code, the method returns true. -/
theorem send_failure_response_true (env : Env) (hwb : env.WellBehaved) (e : Endian)
    (c : EGIConnection) (m : Command) (log : Log) (buf : List Byte) (size : Nat)
    (hargs : m.args e c = some (buf, size)) :
    ∃ b c1 evs, m.call env e c log = some (b, c1, log ++ evs) ∧
      (sentCount evs = (size : Int) → ∀ x y, received evs = [kFailure, x, y] → b = true) := by
  obtain ⟨evs1, sent, evs2, b, _, hcount, _, hs1, _, hr2, hcmd, _, hfull⟩ :=
    sendCommand_exchange env hwb c.m_socket buf size log
  obtain ⟨c1, hcall⟩ := Command.call_of_sendCommand env e c m log buf size hargs b _ hcmd
  refine ⟨b, c1, evs1 ++ evs2, hcall, ?_⟩
  rw [sentCount_exchange evs1 evs2 hr2, received_exchange evs1 evs2 hs1]
  intro hsent x y hrec
  have hIF : kQuerySuccess ≠ kFailure := by decide
  rcases hfull (by omega) with ⟨h0, _, _⟩ | ⟨c0, rest, hrec2, _, hF, _⟩
  · rw [h0] at hrec; simp at hrec
  · rw [hrec2] at hrec
    simp only [List.cons.injEq] at hrec
    obtain ⟨hc0, hrest⟩ := hrec
    obtain ⟨_, h2, _⟩ := hF hc0
    exact h2.mpr (by rw [hrest]; rfl)

/-- Witness of the amended C2: `sendAttention`. -/
theorem send_failure_response_true_witness :
    (mockEnv 100 [kFailure, 0, 1]).WellBehaved ∧
    Command.attention.args Endian.little mockConnection = some ([kAttention], 1) ∧
    ∃ b c1 evs,
      Command.attention.call (mockEnv 100 [kFailure, 0, 1]) Endian.little mockConnection []
        = some (b, c1, [] ++ evs) ∧
      (sentCount evs = ((1 : Nat) : Int) → ∀ x y, received evs = [kFailure, x, y] → b = true) :=
  ⟨mockEnv_wellBehaved 100 [kFailure, 0, 1], rfl,
    send_failure_response_true (mockEnv 100 [kFailure, 0, 1])
      (mockEnv_wellBehaved 100 [kFailure, 0, 1]) Endian.little mockConnection
      Command.attention [] [kAttention] 1 rfl⟩

/-- C7: for every non-null frame, if `sendComplete` transmits fewer bytes than
the frame length, `sendCommand` returns false and the exchange consists of the
calls of `sendComplete` alone: `recv` is never called and no byte is requested
from the socket. -/
theorem sendCommand_short_send (env : Env) (fd : Int) (command : List Byte)
    (commandSize : Nat) (log : Log) (sent : Nat) (log1 : Log)
    (h : sendComplete env fd command commandSize log = some (sent, log1))
    (hlt : sent < commandSize) :
    ∃ evs, log1 = log ++ evs ∧
      sendCommand env fd (some command) commandSize log = some (false, log ++ evs) ∧
      (∀ ev ∈ evs, ev.isRecv = false) ∧ recvRequested evs = 0 := by
  obtain ⟨evs, h1, h2⟩ := sendComplete_run env fd command commandSize log
  have hsend := sendRun_isSend env fd command commandSize evs 0 log h2
  rw [h] at h1
  simp only [Option.some.injEq, Prod.mk.injEq] at h1
  have hne : sent ≠ commandSize := by omega
  refine ⟨evs, h1.2, ?_, fun ev hev => isRecv_of_isSend ev (hsend ev hev),
    (no_recv_of_isSend evs hsend).2.2⟩
  unfold sendCommand
  simp only [h, hne, ne_eq, not_false_eq_true, if_true, recvResponseCode,
    Bool.false_eq_true, if_false, recvResponseData_false, h1.2]

/-- Witness of C7: a socket on which nothing can be sent. -/
theorem sendCommand_short_send_witness :
    sendComplete (mockEnv 0 []) 3 [kAttention] 1 []
      = some (0, [Event.send 3 0 1 [kAttention] (-1)]) ∧ 0 < 1 ∧
    ∃ evs, [Event.send 3 0 1 [kAttention] (-1)] = [] ++ evs ∧
      sendCommand (mockEnv 0 []) 3 (some [kAttention]) 1 [] = some (false, [] ++ evs) ∧
      (∀ ev ∈ evs, ev.isRecv = false) ∧ recvRequested evs = 0 :=
  ⟨by decide, by decide,
    sendCommand_short_send (mockEnv 0 []) 3 [kAttention] 1 [] 0
      [Event.send 3 0 1 [kAttention] (-1)] (by decide) (by decide)⟩

/-- C8: in every exchange the bytes consumed from the receive stream are never
more than one response: after the code `'I'` at most 1 byte, after `'F'` at most
2 bytes, after any other code none.  When the frame was fully sent and no read
fell short, they are exactly that: 1 byte for `'Z'` or an unknown code, 2 bytes
for `'I'`, 3 bytes for `'F'`. -/
theorem sendCommand_consumes (env : Env) (hwb : env.WellBehaved) (fd : Int)
    (command : List Byte) (commandSize : Nat) (log : Log) :
    ∃ b evs, sendCommand env fd (some command) commandSize log = some (b, log ++ evs) ∧
      (∀ c rest, received evs = c :: rest →
        rest.length ≤ if c = kQuerySuccess then 1 else if c = kFailure then 2 else 0) ∧
      (sentCount evs = (commandSize : Int) → (∀ ev ∈ evs, ev.isRecv = true → 0 < ev.result) →
        ∃ c rest, received evs = c :: rest ∧
          rest.length = if c = kQuerySuccess then 1 else if c = kFailure then 2 else 0) := by
  obtain ⟨evs1, sent, evs2, b, _, hcount, _, hs1, _, hr2, hcmd, hshort, hfull⟩ :=
    sendCommand_exchange env hwb fd command commandSize log
  have hIF : kQuerySuccess ≠ kFailure := by decide
  refine ⟨b, evs1 ++ evs2, hcmd, ?_, ?_⟩
  · rw [received_exchange evs1 evs2 hs1]
    intro c rest hrec
    by_cases hs : sent = commandSize
    · rcases hfull hs with ⟨h0, _, _⟩ | ⟨c0, rest0, hrec2, hI, hF, hO⟩
      · rw [h0] at hrec; simp at hrec
      · rw [hrec2] at hrec
        simp only [List.cons.injEq] at hrec
        obtain ⟨rfl, rfl⟩ := hrec
        by_cases hcI : c0 = kQuerySuccess
        · rw [if_pos hcI]; exact (hI hcI).1
        · by_cases hcF : c0 = kFailure
          · rw [if_neg hcI, if_pos hcF]; exact (hF hcF).1
          · rw [if_neg hcI, if_neg hcF, (hO hcI hcF).1]; simp
    · rw [(hshort hs).1] at hrec; simp [received] at hrec
  · rw [sentCount_exchange evs1 evs2 hr2, received_exchange evs1 evs2 hs1]
    intro hsent hpos
    have hpos2 : ∀ ev ∈ evs2, 0 < ev.result :=
      fun ev hev => hpos ev (List.mem_append_right _ hev) (hr2 ev hev)
    rcases hfull (by omega) with ⟨_, _, hneg⟩ | ⟨c0, rest0, hrec2, hI, hF, hO⟩
    · exact absurd hpos2 hneg
    · refine ⟨c0, rest0, hrec2, ?_⟩
      by_cases hcI : c0 = kQuerySuccess
      · rw [if_pos hcI]; exact (hI hcI).2.2.mpr hpos2
      · by_cases hcF : c0 = kFailure
        · rw [if_neg hcI, if_pos hcF]; exact (hF hcF).2.2.mpr hpos2
        · rw [if_neg hcI, if_neg hcF, (hO hcI hcF).1]; rfl

/-- Witness of C8: a peer that answers `'I'` and the version, followed by the
first byte of another response, which stays unread. -/
theorem sendCommand_consumes_witness :
    (mockEnv 100 [kQuerySuccess, 1, kSuccess]).WellBehaved ∧
    ∃ b evs, sendCommand (mockEnv 100 [kQuerySuccess, 1, kSuccess]) 3 (some [kAttention]) 1 []
        = some (b, [] ++ evs) ∧
      (∀ c rest, received evs = c :: rest →
        rest.length ≤ if c = kQuerySuccess then 1 else if c = kFailure then 2 else 0) ∧
      (sentCount evs = ((1 : Nat) : Int) → (∀ ev ∈ evs, ev.isRecv = true → 0 < ev.result) →
        ∃ c rest, received evs = c :: rest ∧
          rest.length = if c = kQuerySuccess then 1 else if c = kFailure then 2 else 0) :=
  ⟨mockEnv_wellBehaved 100 [kQuerySuccess, 1, kSuccess],
    sendCommand_consumes (mockEnv 100 [kQuerySuccess, 1, kSuccess])
      (mockEnv_wellBehaved 100 [kQuerySuccess, 1, kSuccess]) 3 [kAttention] 1 []⟩

/-! ## Frames -/

theorem natBytesLE_length (w : Nat) : ∀ v, (natBytesLE w v).length = w := by
  induction w with
  | zero => intro v; rfl
  | succ w ih => intro v; simp [natBytesLE, ih]

theorem objectBytes_length (e : Endian) (w v : Nat) : (objectBytes e w v).length = w := by
  cases e <;> simp [objectBytes, natBytesLE_length]

theorem intBytes_length (e : Endian) (x : Int) : (intBytes e x).length = 4 :=
  objectBytes_length e 4 _

theorem ushortBytes_length (e : Endian) (x : Nat) : (ushortBytes e x).length = 2 :=
  objectBytes_length e 2 _

/-- After a store that ends at index `k`, the first `k` bytes are the bytes
before the store followed by the bytes stored. -/
theorem take_writeAt (buf bs : List Byte) (off k : Nat) (hk : k = off + bs.length)
    (h : k ≤ buf.length) : (writeAt buf off bs).take k = buf.take off ++ bs := by
  subst hk
  rw [writeAt_eq bs buf off h, List.append_assoc, ← List.append_assoc]
  apply List.take_left'
  simp
  omega

theorem storeByte_eq (buf : List Byte) (off : Nat) (b : Byte) (h : off < buf.length) :
    storeByte buf off b = some (writeAt buf off [b]) := by
  simp [storeByte, h, writeAt]

theorem memcpy_eq (buf : List Byte) (off : Nat) (src : List Byte) (n : Nat)
    (hsrc : n ≤ src.length) (h : off + n ≤ buf.length) :
    memcpy buf off src n = some (writeAt buf off (src.take n)) := by
  simp [memcpy, hsrc, h]

theorem memset_eq (buf : List Byte) (off : Nat) (b : Byte) (n : Nat) (h : off + n ≤ buf.length) :
    memset buf off b n = some (writeAt buf off (List.replicate n b)) := by
  simp [memset, h]

theorem storeByte_step (buf pre : List Byte) (off : Nat) (b : Byte) (N : Nat)
    (hN : buf.length = N) (hpre : buf.take off = pre) (h : off + 1 ≤ N) :
    ∃ buf1, storeByte buf off b = some buf1 ∧ buf1.length = N ∧
      buf1.take (off + 1) = pre ++ [b] := by
  refine ⟨writeAt buf off [b], storeByte_eq buf off b (by omega), ?_, ?_⟩
  · rw [writeAt_length, hN]
  · rw [take_writeAt buf [b] off (off + 1) rfl (by omega), hpre]

theorem memcpy_step (buf pre src : List Byte) (off n N : Nat)
    (hN : buf.length = N) (hpre : buf.take off = pre) (hsrc : n ≤ src.length)
    (h : off + n ≤ N) :
    ∃ buf1, memcpy buf off src n = some buf1 ∧ buf1.length = N ∧
      buf1.take (off + n) = pre ++ src.take n := by
  refine ⟨writeAt buf off (src.take n), memcpy_eq buf off src n hsrc (by omega), ?_, ?_⟩
  · rw [writeAt_length, hN]
  · rw [take_writeAt buf (src.take n) off (off + n)
      (by rw [List.length_take, Nat.min_eq_left hsrc]) (by omega), hpre]

theorem memset_step (buf pre : List Byte) (off : Nat) (b : Byte) (n N : Nat)
    (hN : buf.length = N) (hpre : buf.take off = pre) (h : off + n ≤ N) :
    ∃ buf1, memset buf off b n = some buf1 ∧ buf1.length = N ∧
      buf1.take (off + n) = pre ++ List.replicate n b := by
  refine ⟨writeAt buf off (List.replicate n b), memset_eq buf off b n (by omega), ?_, ?_⟩
  · rw [writeAt_length, hN]
  · rw [take_writeAt buf (List.replicate n b) off (off + n) (by simp) (by omega), hpre]

/-- The buffer `sendTrigger` passes to `sendCommand`, whatever it held before. -/
theorem sendTriggerBuffer_eq (e : Endian) (c : EGIConnection) (hc : c.WellFormed)
    (code : List Byte) (hcode : 4 ≤ code.length) (timeStamp msDuration : Int) :
    ∃ buf, sendTriggerBuffer e c code timeStamp msDuration = some (buf, 28) ∧
      buf.length = commandBufferSize ∧
      buf.take 28 = [kEventDataStream] ++ ushortBytes e 25 ++ intBytes e timeStamp
        ++ intBytes e msDuration ++ code.take 4 ++ List.replicate 13 0 := by
  have hlen : c.m_commandBuffer.length = 65539 := hc
  obtain ⟨b1, e1, l1, t1⟩ :=
    storeByte_step c.m_commandBuffer [] 0 kEventDataStream 65539 hlen rfl (by omega)
  obtain ⟨b2, e2, l2, t2⟩ := memcpy_step b1 _ (ushortBytes e 25) 1 2 65539 l1 t1
    (by rw [ushortBytes_length]) (by omega)
  obtain ⟨b3, e3, l3, t3⟩ := memcpy_step b2 _ (intBytes e timeStamp) 3 4 65539 l2 t2
    (by rw [intBytes_length]) (by omega)
  obtain ⟨b4, e4, l4, t4⟩ := memcpy_step b3 _ (intBytes e msDuration) 7 4 65539 l3 t3
    (by rw [intBytes_length]) (by omega)
  obtain ⟨b5, e5, l5, t5⟩ := memcpy_step b4 _ code 11 4 65539 l4 t4 hcode (by omega)
  obtain ⟨b6, e6, l6, t6⟩ := memset_step b5 _ 15 0 13 65539 l5 t5 (by omega)
  refine ⟨b6, ?_, l6, ?_⟩
  · simp [sendTriggerBuffer, e1, e2, e3, e4, e5, e6]
  · rw [t6, List.take_of_length_le (le_of_eq (ushortBytes_length e 25)),
      List.take_of_length_le (le_of_eq (intBytes_length e timeStamp)),
      List.take_of_length_le (le_of_eq (intBytes_length e msDuration))]
    rfl

/-- The buffer `sendSynch` passes to `sendCommand`, whatever it held before. -/
theorem sendSynchBuffer_eq (e : Endian) (c : EGIConnection) (hc : c.WellFormed)
    (timeStamp : Int) :
    ∃ buf, sendSynchBuffer e c timeStamp = some (buf, 5) ∧
      buf.length = commandBufferSize ∧
      buf.take 5 = [kTimeSynch] ++ intBytes e timeStamp := by
  have hlen : c.m_commandBuffer.length = 65539 := hc
  obtain ⟨b1, e1, l1, t1⟩ :=
    storeByte_step c.m_commandBuffer [] 0 kTimeSynch 65539 hlen rfl (by omega)
  obtain ⟨b2, e2, l2, t2⟩ := memcpy_step b1 _ (intBytes e timeStamp) 1 4 65539 l1 t1
    (by rw [intBytes_length]) (by omega)
  refine ⟨b2, ?_, l2, ?_⟩
  · simp [sendSynchBuffer, e1, e2]
  · rw [t2, List.take_of_length_le (le_of_eq (intBytes_length e timeStamp))]
    rfl

/-- The buffer `sendBeginSession` passes to `sendCommand`, whatever it held
before. -/
theorem sendBeginSessionBuffer_eq (c : EGIConnection) (hc : c.WellFormed)
    (systemSpec : List Byte) (hspec : 4 ≤ systemSpec.length) :
    ∃ buf, sendBeginSessionBuffer c systemSpec = some (buf, 5) ∧
      buf.length = commandBufferSize ∧
      buf.take 5 = [kQuery] ++ systemSpec.take 4 := by
  have hlen : c.m_commandBuffer.length = 65539 := hc
  obtain ⟨b1, e1, l1, t1⟩ :=
    storeByte_step c.m_commandBuffer [] 0 kQuery 65539 hlen rfl (by omega)
  obtain ⟨b2, e2, l2, t2⟩ := memcpy_step b1 _ systemSpec 1 4 65539 l1 t1 hspec (by omega)
  refine ⟨b2, ?_, l2, ?_⟩
  · simp [sendBeginSessionBuffer, e1, e2]
  · rw [t2]
    rfl

/-! ## Byte order -/

theorem decodeNat_natBytes4 (e : Endian) (v : Nat) (hv : v < 4294967296) :
    decodeNat e (objectBytes e 4 v) = v := by
  cases e
  · simp only [decodeNat, objectBytes, natBytesLE, List.foldr]
    omega
  · simp only [decodeNat, objectBytes, natBytesLE, List.reverse_cons, List.reverse_nil,
      List.nil_append, List.cons_append, List.foldl]
    omega

theorem decodeNat_natBytes2 (e : Endian) (v : Nat) (hv : v < 65536) :
    decodeNat e (objectBytes e 2 v) = v := by
  cases e
  · simp only [decodeNat, objectBytes, natBytesLE, List.foldr]
    omega
  · simp only [decodeNat, objectBytes, natBytesLE, List.reverse_cons, List.reverse_nil,
      List.nil_append, List.cons_append, List.foldl]
    omega

/-- Reading back the object representation of an `int` gives its value. -/
theorem decodeInt_intBytes (e : Endian) (x : Int) (hx : IsInt32 x) :
    decodeInt e (intBytes e x) = x := by
  obtain ⟨h1, h2⟩ := hx
  unfold decodeInt intBytes
  rw [decodeNat_natBytes4 e _ (by omega)]
  unfold toInt32
  omega

theorem decodeNat_ushortBytes (e : Endian) (x : Nat) (hx : x < 65536) :
    decodeNat e (ushortBytes e x) = x := by
  unfold ushortBytes
  rw [Nat.mod_eq_of_lt hx]
  exact decodeNat_natBytes2 e x hx
theorem mockConnection_wellFormed : mockConnection.WellFormed := by
  simp [EGIConnection.WellFormed, mockConnection]

/-- C3, counterexample: in the frame of `sendTrigger("AB\0\0", 100, 50)` the
tag is followed by 27 bytes, not by 25: the length field is part of them. -/
theorem sendTrigger_bytes_after_tag :
    (sendTriggerBuffer Endian.little mockConnection [charByte 'A', charByte 'B', 0, 0] 100 50).map
        (fun a => ((frameOf a).length, ((frameOf a).drop 1).length)) = some (28, 27) ∧
    (27 : Nat) ≠ 25 := by
  obtain ⟨buf, h1, _, f1⟩ := sendTriggerBuffer_eq Endian.little mockConnection
    mockConnection_wellFormed [charByte 'A', charByte 'B', 0, 0] (by decide) 100 50
  refine ⟨?_, by decide⟩
  rw [h1, Option.map_some', frameOf, f1]; decide

/-- C3, amended: for every 4-byte event code, 32-bit signed timestamp and
duration, the frame `sendTrigger` hands to `sendCommand` has length 28 and is
the tag `'D'`, the 2-byte length field holding 25 in native byte order, the
4-byte timestamp, the 4-byte duration, the 4 code bytes verbatim, and 13 zero
bytes; the payload after the tag and the length field has the 25 bytes the
length field declares (27 bytes follow the tag). -/
theorem sendTrigger_frame (env : Env) (e : Endian) (c : EGIConnection) (hc : c.WellFormed)
    (code : List Byte) (hcode : code.length = 4) (timeStamp msDuration : Int)
    (hts : IsInt32 timeStamp) (hdur : IsInt32 msDuration) (log : Log) :
    ∃ buf, sendTriggerBuffer e c code timeStamp msDuration = some (buf, 28) ∧
      sendTrigger env e c code timeStamp msDuration log
        = (sendCommand env c.m_socket (some buf) 28 log).map
            (fun r => (r.1, { c with m_commandBuffer := buf }, r.2)) ∧
      frameOf (buf, 28) = [charByte 'D'] ++ ushortBytes e 25 ++ intBytes e timeStamp
        ++ intBytes e msDuration ++ code ++ List.replicate 13 0 ∧
      (frameOf (buf, 28)).length = 28 ∧
      (ushortBytes e 25).length = 2 ∧ decodeNat e (ushortBytes e 25) = 25 ∧
      (intBytes e timeStamp).length = 4 ∧ decodeInt e (intBytes e timeStamp) = timeStamp ∧
      (intBytes e msDuration).length = 4 ∧ decodeInt e (intBytes e msDuration) = msDuration ∧
      ((frameOf (buf, 28)).drop 1).length = 27 ∧
      ((frameOf (buf, 28)).drop 3).length = decodeNat e (ushortBytes e 25) := by
  obtain ⟨buf, h1, _, h3⟩ := sendTriggerBuffer_eq e c hc code (le_of_eq hcode.symm)
    timeStamp msDuration
  have hframe : frameOf (buf, 28) = [charByte 'D'] ++ ushortBytes e 25 ++ intBytes e timeStamp
      ++ intBytes e msDuration ++ code ++ List.replicate 13 0 := by
    rw [frameOf, h3, List.take_of_length_le (le_of_eq hcode)]
    rfl
  have hus := decodeNat_ushortBytes e 25 (by omega)
  have hlen : (frameOf (buf, 28)).length = 28 := by
    rw [hframe]
    simp [ushortBytes_length, intBytes_length, hcode]
  refine ⟨buf, h1, ?_, hframe, hlen, ushortBytes_length e 25, hus, intBytes_length e _,
    decodeInt_intBytes e _ hts, intBytes_length e _, decodeInt_intBytes e _ hdur, ?_, ?_⟩
  · simp only [sendTrigger, h1]
    cases sendCommand env c.m_socket (some buf) 28 log <;> rfl
  · rw [List.length_drop, hlen]
  · rw [hus, List.length_drop, hlen]

/-- Witness of the amended C3: the event `"AB\0\0"` at time 100 for 50 ms. -/
theorem sendTrigger_frame_witness :
    mockConnection.WellFormed ∧ [charByte 'A', charByte 'B', 0, 0].length = 4 ∧
    IsInt32 100 ∧ IsInt32 50 ∧
    ∃ buf, sendTriggerBuffer Endian.little mockConnection [charByte 'A', charByte 'B', 0, 0]
        100 50 = some (buf, 28) ∧
      sendTrigger (mockEnv 100 [kSuccess]) Endian.little mockConnection
          [charByte 'A', charByte 'B', 0, 0] 100 50 []
        = (sendCommand (mockEnv 100 [kSuccess]) mockConnection.m_socket (some buf) 28 []).map
            (fun r => (r.1, { mockConnection with m_commandBuffer := buf }, r.2)) ∧
      frameOf (buf, 28) = [charByte 'D'] ++ ushortBytes Endian.little 25
        ++ intBytes Endian.little 100 ++ intBytes Endian.little 50
        ++ [charByte 'A', charByte 'B', 0, 0] ++ List.replicate 13 0 ∧
      (frameOf (buf, 28)).length = 28 ∧
      (ushortBytes Endian.little 25).length = 2 ∧
      decodeNat Endian.little (ushortBytes Endian.little 25) = 25 ∧
      (intBytes Endian.little 100).length = 4 ∧
      decodeInt Endian.little (intBytes Endian.little 100) = 100 ∧
      (intBytes Endian.little 50).length = 4 ∧
      decodeInt Endian.little (intBytes Endian.little 50) = 50 ∧
      ((frameOf (buf, 28)).drop 1).length = 27 ∧
      ((frameOf (buf, 28)).drop 3).length = decodeNat Endian.little (ushortBytes Endian.little 25) :=
  ⟨mockConnection_wellFormed, rfl, ⟨by decide, by decide⟩, ⟨by decide, by decide⟩,
    sendTrigger_frame (mockEnv 100 [kSuccess]) Endian.little mockConnection
      mockConnection_wellFormed [charByte 'A', charByte 'B', 0, 0] rfl 100 50
      ⟨by decide, by decide⟩ ⟨by decide, by decide⟩ []⟩

/-- C4, counterexample: in the frame of `sendTrigger("AB\0\0", 100, 50)` the
bytes at offsets 7 to 10 are the duration 50, in either byte order, and not
`'A','B',0,0`. -/
theorem sendTrigger_offsets_7_to_10 :
    (sendTriggerBuffer Endian.little mockConnection [charByte 'A', charByte 'B', 0, 0] 100 50).map
        (fun a => ((frameOf a).drop 7).take 4) = some [50, 0, 0, 0] ∧
    (sendTriggerBuffer Endian.big mockConnection [charByte 'A', charByte 'B', 0, 0] 100 50).map
        (fun a => ((frameOf a).drop 7).take 4) = some [0, 0, 0, 50] ∧
    ([50, 0, 0, 0] : List Byte) ≠ [charByte 'A', charByte 'B', 0, 0] ∧
    ([0, 0, 0, 50] : List Byte) ≠ [charByte 'A', charByte 'B', 0, 0] := by
  obtain ⟨buf1, h1, _, f1⟩ := sendTriggerBuffer_eq Endian.little mockConnection
    mockConnection_wellFormed [charByte 'A', charByte 'B', 0, 0] (by decide) 100 50
  obtain ⟨buf2, h2, _, f2⟩ := sendTriggerBuffer_eq Endian.big mockConnection
    mockConnection_wellFormed [charByte 'A', charByte 'B', 0, 0] (by decide) 100 50
  refine ⟨?_, ?_, by decide, by decide⟩
  · rw [h1, Option.map_some', frameOf, f1]; decide
  · rw [h2, Option.map_some', frameOf, f2]; decide

/-- C4, amended: for every 4-byte event code `c`, timestamp and duration, the
frame of `sendTrigger` has `c[0..3]` at byte offsets 11 to 14 (offsets 7 to 10
hold the duration) and its final 13 bytes are zero; in particular the frame of
`sendTrigger("AB\0\0", 100, 50)` has `'A','B',0,0` at offsets 11 to 14. -/
theorem sendTrigger_code_offset (e : Endian) (c : EGIConnection) (hc : c.WellFormed)
    (code : List Byte) (hcode : code.length = 4) (timeStamp msDuration : Int) :
    (∃ buf, sendTriggerBuffer e c code timeStamp msDuration = some (buf, 28) ∧
      ((frameOf (buf, 28)).drop 11).take 4 = code ∧
      ((frameOf (buf, 28)).drop 7).take 4 = intBytes e msDuration ∧
      (frameOf (buf, 28)).drop (28 - 13) = List.replicate 13 0 ∧
      (frameOf (buf, 28)).length = 28) ∧
    (∃ buf, sendTriggerBuffer e c [charByte 'A', charByte 'B', 0, 0] 100 50 = some (buf, 28) ∧
      ((frameOf (buf, 28)).drop 11).take 4 = [charByte 'A', charByte 'B', 0, 0]) := by
  have key : ∀ (code : List Byte), code.length = 4 → ∀ (ts dur : Int),
      ∃ buf, sendTriggerBuffer e c code ts dur = some (buf, 28) ∧
        ((frameOf (buf, 28)).drop 11).take 4 = code ∧
        ((frameOf (buf, 28)).drop 7).take 4 = intBytes e dur ∧
        (frameOf (buf, 28)).drop (28 - 13) = List.replicate 13 0 ∧
        (frameOf (buf, 28)).length = 28 := by
    intro code hcode ts dur
    obtain ⟨buf, h1, _, h3⟩ := sendTriggerBuffer_eq e c hc code (le_of_eq hcode.symm) ts dur
    have hframe : frameOf (buf, 28) = ([kEventDataStream] ++ ushortBytes e 25 ++ intBytes e ts)
        ++ (intBytes e dur ++ (code ++ List.replicate 13 0)) := by
      rw [frameOf, h3, List.take_of_length_le (le_of_eq hcode)]
      simp
    have hpre : ([kEventDataStream] ++ ushortBytes e 25 ++ intBytes e ts).length = 7 := by
      simp [ushortBytes_length, intBytes_length]
    have hd7 : (frameOf (buf, 28)).drop 7 = intBytes e dur ++ (code ++ List.replicate 13 0) := by
      rw [hframe]; exact List.drop_left' hpre
    have hd11 : (frameOf (buf, 28)).drop 11 = code ++ List.replicate 13 0 := by
      have : (frameOf (buf, 28)).drop 11 = ((frameOf (buf, 28)).drop 7).drop 4 := by
        rw [List.drop_drop]
      rw [this, hd7]; exact List.drop_left' (intBytes_length e dur)
    have hd15 : (frameOf (buf, 28)).drop 15 = List.replicate 13 0 := by
      have : (frameOf (buf, 28)).drop 15 = ((frameOf (buf, 28)).drop 11).drop 4 := by
        rw [List.drop_drop]
      rw [this, hd11]; exact List.drop_left' hcode
    refine ⟨buf, h1, ?_, ?_, hd15, ?_⟩
    · rw [hd11]; exact List.take_left' hcode
    · rw [hd7]; exact List.take_left' (intBytes_length e dur)
    · rw [hframe]; simp [ushortBytes_length, intBytes_length, hcode]
  refine ⟨key code hcode timeStamp msDuration, ?_⟩
  obtain ⟨buf, h1, h2, _⟩ := key [charByte 'A', charByte 'B', 0, 0] rfl 100 50
  exact ⟨buf, h1, h2⟩

/-- Witness of the amended C4: the event `"STIM"` at time 7 for 9 ms. -/
theorem sendTrigger_code_offset_witness :
    mockConnection.WellFormed ∧
    [charByte 'S', charByte 'T', charByte 'I', charByte 'M'].length = 4 ∧
    ((∃ buf, sendTriggerBuffer Endian.big mockConnection
          [charByte 'S', charByte 'T', charByte 'I', charByte 'M'] 7 9 = some (buf, 28) ∧
        ((frameOf (buf, 28)).drop 11).take 4
          = [charByte 'S', charByte 'T', charByte 'I', charByte 'M'] ∧
        ((frameOf (buf, 28)).drop 7).take 4 = intBytes Endian.big 9 ∧
        (frameOf (buf, 28)).drop (28 - 13) = List.replicate 13 0 ∧
        (frameOf (buf, 28)).length = 28) ∧
      (∃ buf, sendTriggerBuffer Endian.big mockConnection [charByte 'A', charByte 'B', 0, 0]
          100 50 = some (buf, 28) ∧
        ((frameOf (buf, 28)).drop 11).take 4 = [charByte 'A', charByte 'B', 0, 0])) :=
  ⟨mockConnection_wellFormed, rfl,
    sendTrigger_code_offset Endian.big mockConnection mockConnection_wellFormed
      [charByte 'S', charByte 'T', charByte 'I', charByte 'M'] rfl 7 9⟩

/-! ## Round trip -/

theorem decodeBeginSession_frame (systemSpec : List Byte) (h : systemSpec.length = 4) :
    decodeBeginSession ([kQuery] ++ systemSpec.take 4) = some (charByte 'Q', systemSpec) := by
  rw [List.take_of_length_le (le_of_eq h)]
  simp only [List.singleton_append, decodeBeginSession, h, if_true]
  rfl

theorem decodeSynch_frame (e : Endian) (timeStamp : Int) (h : IsInt32 timeStamp) :
    decodeSynch e ([kTimeSynch] ++ intBytes e timeStamp) = some (charByte 'T', timeStamp) := by
  simp only [List.singleton_append, decodeSynch, intBytes_length, if_true,
    decodeInt_intBytes e timeStamp h]
  rfl

theorem decodeTrigger_frame (e : Endian) (code : List Byte) (hcode : code.length = 4)
    (timeStamp msDuration : Int) (hts : IsInt32 timeStamp) (hdur : IsInt32 msDuration) :
    decodeTrigger e ([kEventDataStream] ++ ushortBytes e 25 ++ intBytes e timeStamp
        ++ intBytes e msDuration ++ code.take 4 ++ List.replicate 13 0)
      = some { tag := charByte 'D', dataSize := 25, timeStamp := timeStamp,
               msDuration := msDuration, code := code, padding := List.replicate 13 0 } := by
  rw [List.take_of_length_le (le_of_eq hcode)]
  have hshape : [kEventDataStream] ++ ushortBytes e 25 ++ intBytes e timeStamp
        ++ intBytes e msDuration ++ code ++ List.replicate 13 0
      = kEventDataStream :: (ushortBytes e 25 ++ (intBytes e timeStamp
        ++ (intBytes e msDuration ++ (code ++ List.replicate 13 0)))) := by simp
  rw [hshape]
  have hus := ushortBytes_length e 25
  have h1 := intBytes_length e timeStamp
  have h2 := intBytes_length e msDuration
  have t2 : (ushortBytes e 25 ++ (intBytes e timeStamp
        ++ (intBytes e msDuration ++ (code ++ List.replicate 13 0)))).take 2 = ushortBytes e 25 :=
    List.take_left' hus
  have d2 : (ushortBytes e 25 ++ (intBytes e timeStamp
        ++ (intBytes e msDuration ++ (code ++ List.replicate 13 0)))).drop 2
      = intBytes e timeStamp ++ (intBytes e msDuration ++ (code ++ List.replicate 13 0)) :=
    List.drop_left' hus
  have t4 : (intBytes e timeStamp ++ (intBytes e msDuration
        ++ (code ++ List.replicate 13 0))).take 4 = intBytes e timeStamp := List.take_left' h1
  have d4 : (intBytes e timeStamp ++ (intBytes e msDuration
        ++ (code ++ List.replicate 13 0))).drop 4
      = intBytes e msDuration ++ (code ++ List.replicate 13 0) := List.drop_left' h1
  have d8 : (intBytes e timeStamp ++ (intBytes e msDuration
        ++ (code ++ List.replicate 13 0))).drop 8 = code ++ List.replicate 13 0 := by
    have : (intBytes e timeStamp ++ (intBytes e msDuration
        ++ (code ++ List.replicate 13 0))).drop 8
        = ((intBytes e timeStamp ++ (intBytes e msDuration
        ++ (code ++ List.replicate 13 0))).drop 4).drop 4 := by rw [List.drop_drop]
    rw [this, d4]; exact List.drop_left' h2
  have d12 : (intBytes e timeStamp ++ (intBytes e msDuration
        ++ (code ++ List.replicate 13 0))).drop 12 = List.replicate 13 0 := by
    have : (intBytes e timeStamp ++ (intBytes e msDuration
        ++ (code ++ List.replicate 13 0))).drop 12
        = ((intBytes e timeStamp ++ (intBytes e msDuration
        ++ (code ++ List.replicate 13 0))).drop 8).drop 4 := by rw [List.drop_drop]
    rw [this, d8]; exact List.drop_left' hcode
  have t4b : (intBytes e msDuration ++ (code ++ List.replicate 13 0)).take 4
      = intBytes e msDuration := List.take_left' h2
  have t4c : (code ++ List.replicate 13 0).take 4 = code := List.take_left' hcode
  have hlen : (intBytes e timeStamp ++ (intBytes e msDuration
        ++ (code ++ List.replicate 13 0))).length = 25 := by
    simp [h1, h2, hcode]
  simp only [decodeTrigger, t2, d2, t4, d4, d8, d12, t4b, t4c, hlen,
    decodeNat_ushortBytes e 25 (by omega), decodeInt_intBytes e _ hts,
    decodeInt_intBytes e _ hdur]
  rfl

/-- C5: decoding the frame emitted by `sendBeginSession`, `sendSynch` or
`sendTrigger` with the reference decoder of the documented layout recovers the
tag of the operation and the session token, timestamp, duration and event code
that were supplied; consequently frames of different arguments differ. -/
theorem encode_decode_roundtrip (e : Endian) (c : EGIConnection) (hc : c.WellFormed)
    (systemSpec : List Byte) (hspec : systemSpec.length = 4)
    (code : List Byte) (hcode : code.length = 4)
    (timeStamp msDuration : Int) (hts : IsInt32 timeStamp) (hdur : IsInt32 msDuration) :
    ((sendBeginSessionBuffer c systemSpec).bind fun a => decodeBeginSession (frameOf a))
      = some (charByte 'Q', systemSpec) ∧
    ((sendSynchBuffer e c timeStamp).bind fun a => decodeSynch e (frameOf a))
      = some (charByte 'T', timeStamp) ∧
    ((sendTriggerBuffer e c code timeStamp msDuration).bind fun a => decodeTrigger e (frameOf a))
      = some { tag := charByte 'D', dataSize := 25, timeStamp := timeStamp,
               msDuration := msDuration, code := code, padding := List.replicate 13 0 } ∧
    (∀ (c2 : EGIConnection) (systemSpec2 : List Byte), c2.WellFormed → systemSpec2.length = 4 →
      (sendBeginSessionBuffer c systemSpec).map frameOf
        = (sendBeginSessionBuffer c2 systemSpec2).map frameOf → systemSpec = systemSpec2) ∧
    (∀ (c2 : EGIConnection) (timeStamp2 : Int), c2.WellFormed → IsInt32 timeStamp2 →
      (sendSynchBuffer e c timeStamp).map frameOf
        = (sendSynchBuffer e c2 timeStamp2).map frameOf → timeStamp = timeStamp2) ∧
    (∀ (c2 : EGIConnection) (code2 : List Byte) (timeStamp2 msDuration2 : Int),
      c2.WellFormed → code2.length = 4 → IsInt32 timeStamp2 → IsInt32 msDuration2 →
      (sendTriggerBuffer e c code timeStamp msDuration).map frameOf
        = (sendTriggerBuffer e c2 code2 timeStamp2 msDuration2).map frameOf →
      code = code2 ∧ timeStamp = timeStamp2 ∧ msDuration = msDuration2) := by
  obtain ⟨bq, q1, _, q3⟩ := sendBeginSessionBuffer_eq c hc systemSpec (le_of_eq hspec.symm)
  obtain ⟨bs, s1, _, s3⟩ := sendSynchBuffer_eq e c hc timeStamp
  obtain ⟨bt, t1, _, t3⟩ := sendTriggerBuffer_eq e c hc code (le_of_eq hcode.symm)
    timeStamp msDuration
  refine ⟨?_, ?_, ?_, ?_, ?_, ?_⟩
  · rw [q1, Option.some_bind, frameOf, q3]
    exact decodeBeginSession_frame systemSpec hspec
  · rw [s1, Option.some_bind, frameOf, s3]
    exact decodeSynch_frame e timeStamp hts
  · rw [t1, Option.some_bind, frameOf, t3]
    exact decodeTrigger_frame e code hcode timeStamp msDuration hts hdur
  · intro c2 systemSpec2 hc2 hspec2 heq
    obtain ⟨bq2, q12, _, q32⟩ := sendBeginSessionBuffer_eq c2 hc2 systemSpec2
      (le_of_eq hspec2.symm)
    rw [q1, q12] at heq
    simp only [Option.map_some', Option.some.injEq, frameOf] at heq
    rw [q3, q32] at heq
    have h1 := decodeBeginSession_frame systemSpec hspec
    rw [heq, decodeBeginSession_frame systemSpec2 hspec2] at h1
    simp only [Option.some.injEq, Prod.mk.injEq] at h1
    exact h1.2.symm
  · intro c2 timeStamp2 hc2 hts2 heq
    obtain ⟨bs2, s12, _, s32⟩ := sendSynchBuffer_eq e c2 hc2 timeStamp2
    rw [s1, s12] at heq
    simp only [Option.map_some', Option.some.injEq, frameOf] at heq
    rw [s3, s32] at heq
    have h1 := decodeSynch_frame e timeStamp hts
    rw [heq, decodeSynch_frame e timeStamp2 hts2] at h1
    simp only [Option.some.injEq, Prod.mk.injEq] at h1
    exact h1.2.symm
  · intro c2 code2 timeStamp2 msDuration2 hc2 hcode2 hts2 hdur2 heq
    obtain ⟨bt2, t12, _, t32⟩ := sendTriggerBuffer_eq e c2 hc2 code2 (le_of_eq hcode2.symm)
      timeStamp2 msDuration2
    rw [t1, t12] at heq
    simp only [Option.map_some', Option.some.injEq, frameOf] at heq
    rw [t3, t32] at heq
    have h1 := decodeTrigger_frame e code hcode timeStamp msDuration hts hdur
    rw [heq, decodeTrigger_frame e code2 hcode2 timeStamp2 msDuration2 hts2 hdur2] at h1
    simp only [Option.some.injEq, TriggerFields.mk.injEq] at h1
    exact ⟨h1.2.2.2.2.1.symm, h1.2.2.1.symm, h1.2.2.2.1.symm⟩

/-- Witness of C5: the token `"NTEL"`, the event `"AB\0\0"`, a negative
timestamp. -/
theorem encode_decode_roundtrip_witness :
    mockConnection.WellFormed ∧ kLittleEndian.length = 4 ∧
    [charByte 'A', charByte 'B', 0, 0].length = 4 ∧ IsInt32 (-2) ∧ IsInt32 50 ∧
    ((sendBeginSessionBuffer mockConnection kLittleEndian).bind
        fun a => decodeBeginSession (frameOf a)) = some (charByte 'Q', kLittleEndian) ∧
    ((sendSynchBuffer Endian.big mockConnection (-2)).bind
        fun a => decodeSynch Endian.big (frameOf a)) = some (charByte 'T', -2) ∧
    ((sendTriggerBuffer Endian.big mockConnection [charByte 'A', charByte 'B', 0, 0] (-2) 50).bind
        fun a => decodeTrigger Endian.big (frameOf a))
      = some { tag := charByte 'D', dataSize := 25, timeStamp := -2, msDuration := 50,
               code := [charByte 'A', charByte 'B', 0, 0], padding := List.replicate 13 0 } :=
  have h := encode_decode_roundtrip Endian.big mockConnection mockConnection_wellFormed
    kLittleEndian rfl [charByte 'A', charByte 'B', 0, 0] rfl (-2) 50
    ⟨by decide, by decide⟩ ⟨by decide, by decide⟩
  ⟨mockConnection_wellFormed, rfl, rfl, ⟨by decide, by decide⟩, ⟨by decide, by decide⟩,
    h.1, h.2.1, h.2.2.1⟩

/-- C9: `sendEndSession`, `sendBeginRecording`, `sendEndRecording` and
`sendAttention` hand `sendCommand` the 1-byte frames `'X'`, `'B'`, `'E'`, `'A'`;
`sendBeginSession` hands it the 5-byte frame `'Q'` followed by the 4 token bytes
verbatim, for every 4-byte token; `sendSynch` hands it the 5-byte frame `'T'`
followed by the 4 bytes of the timestamp in native byte order. -/
theorem non_trigger_frames (env : Env) (e : Endian) (c : EGIConnection) (hc : c.WellFormed)
    (systemSpec : List Byte) (hspec : systemSpec.length = 4)
    (timeStamp : Int) (hts : IsInt32 timeStamp) (log : Log) :
    (sendEndSession env c log = sendCommand env c.m_socket (some [charByte 'X']) 1 log ∧
      frameOf ([charByte 'X'], 1) = [charByte 'X']) ∧
    (sendBeginRecording env c log = sendCommand env c.m_socket (some [charByte 'B']) 1 log ∧
      frameOf ([charByte 'B'], 1) = [charByte 'B']) ∧
    (sendEndRecording env c log = sendCommand env c.m_socket (some [charByte 'E']) 1 log ∧
      frameOf ([charByte 'E'], 1) = [charByte 'E']) ∧
    (sendAttention env c log = sendCommand env c.m_socket (some [charByte 'A']) 1 log ∧
      frameOf ([charByte 'A'], 1) = [charByte 'A']) ∧
    (∃ buf, sendBeginSessionBuffer c systemSpec = some (buf, 5) ∧
      sendBeginSession env c systemSpec log
        = (sendCommand env c.m_socket (some buf) 5 log).map
            (fun r => (r.1, { c with m_commandBuffer := buf }, r.2)) ∧
      frameOf (buf, 5) = charByte 'Q' :: systemSpec ∧ (frameOf (buf, 5)).length = 5) ∧
    (∃ buf, sendSynchBuffer e c timeStamp = some (buf, 5) ∧
      sendSynch env e c timeStamp log
        = (sendCommand env c.m_socket (some buf) 5 log).map
            (fun r => (r.1, { c with m_commandBuffer := buf }, r.2)) ∧
      frameOf (buf, 5) = charByte 'T' :: intBytes e timeStamp ∧
      (frameOf (buf, 5)).length = 5 ∧ decodeInt e (intBytes e timeStamp) = timeStamp) := by
  obtain ⟨bq, q1, _, q3⟩ := sendBeginSessionBuffer_eq c hc systemSpec (le_of_eq hspec.symm)
  obtain ⟨bs, s1, _, s3⟩ := sendSynchBuffer_eq e c hc timeStamp
  refine ⟨⟨rfl, rfl⟩, ⟨rfl, rfl⟩, ⟨rfl, rfl⟩, ⟨rfl, rfl⟩, ⟨bq, q1, ?_, ?_, ?_⟩,
    ⟨bs, s1, ?_, ?_, ?_, decodeInt_intBytes e timeStamp hts⟩⟩
  · simp only [sendBeginSession, q1]
    cases sendCommand env c.m_socket (some bq) 5 log <;> rfl
  · rw [frameOf, q3, List.take_of_length_le (le_of_eq hspec)]; rfl
  · rw [frameOf, q3, List.take_of_length_le (le_of_eq hspec)]; simp [hspec]
  · simp only [sendSynch, s1]
    cases sendCommand env c.m_socket (some bs) 5 log <;> rfl
  · rw [frameOf, s3]; rfl
  · rw [frameOf, s3]; simp [intBytes_length]

/-- Witness of C9: a token that is neither `"NTEL"` nor `"UNIX"`. -/
theorem non_trigger_frames_witness :
    mockConnection.WellFormed ∧
    [charByte 'M', charByte 'A', charByte 'C', charByte '-'].length = 4 ∧ IsInt32 26 ∧
    ∃ buf, sendBeginSessionBuffer mockConnection
        [charByte 'M', charByte 'A', charByte 'C', charByte '-'] = some (buf, 5) ∧
      sendBeginSession (mockEnv 100 [kQuerySuccess, 1]) mockConnection
          [charByte 'M', charByte 'A', charByte 'C', charByte '-'] []
        = (sendCommand (mockEnv 100 [kQuerySuccess, 1]) mockConnection.m_socket (some buf) 5 []).map
            (fun r => (r.1, { mockConnection with m_commandBuffer := buf }, r.2)) ∧
      frameOf (buf, 5)
        = charByte 'Q' :: [charByte 'M', charByte 'A', charByte 'C', charByte '-'] ∧
      (frameOf (buf, 5)).length = 5 :=
  ⟨mockConnection_wellFormed, rfl, ⟨by decide, by decide⟩,
    (non_trigger_frames (mockEnv 100 [kQuerySuccess, 1]) Endian.little mockConnection
      mockConnection_wellFormed [charByte 'M', charByte 'A', charByte 'C', charByte '-'] rfl
      26 ⟨by decide, by decide⟩ []).2.2.2.2.1⟩

/-! ## Independence of the earlier buffer contents -/

theorem take_drop_congr (data1 data2 : List Byte) (n a k : Nat)
    (h : data1.take n = data2.take n) (hk : a + k ≤ n) :
    (data1.drop a).take k = (data2.drop a).take k := by
  have h1 : data1.take (a + k) = data2.take (a + k) := by
    have e1 : data1.take (a + k) = (data1.take n).take (a + k) := by
      rw [List.take_take, Nat.min_eq_left hk]
    have e2 : data2.take (a + k) = (data2.take n).take (a + k) := by
      rw [List.take_take, Nat.min_eq_left hk]
    rw [e1, e2, h]
  rw [List.take_drop, List.take_drop, h1]

/-- The send loop looks at the first `n` bytes of the object only. -/
theorem sendLoop_congr (env : Env) (fd : Int) (data1 data2 : List Byte) (n : Nat)
    (h : data1.take n = data2.take n) :
    ∀ (fuel : Nat) (d : Int) (log : Log), 0 ≤ d →
      sendLoop env fd data1 n fuel d log = sendLoop env fd data2 n fuel d log := by
  intro fuel
  induction fuel with
  | zero => intro d log _; rfl
  | succ k ih =>
    intro d log hd
    by_cases hlt : d < (n : Int)
    · have hp : (data1.drop d.toNat).take (toInt32 ((n : Int) - d)).toNat
          = (data2.drop d.toNat).take (toInt32 ((n : Int) - d)).toNat := by
        apply take_drop_congr data1 data2 n _ _ h
        have := toInt32_le ((n : Int) - d) (by omega)
        omega
      simp only [sendLoop, hlt, if_true, hp]
      split
      · rename_i hr
        exact ih _ _ (by omega)
      · rfl
    · simp only [sendLoop, hlt, if_false]

theorem sendCommand_congr (env : Env) (fd : Int) (data1 data2 : List Byte) (n : Nat)
    (h : data1.take n = data2.take n) (log : Log) :
    sendCommand env fd (some data1) n log = sendCommand env fd (some data2) n log := by
  simp only [sendCommand, sendComplete, sendLoop_congr env fd data1 data2 n h n 0 log (le_refl _)]

/-! ## The calls of the transfer loops -/

theorem sendRun_nil_iff (env : Env) (fd : Int) (data : List Byte) (n : Nat) (d : Int)
    (log : Log) (evs : List Event) (h : SendRun env fd data n d log evs) :
    evs = [] ↔ (n : Int) ≤ d := by
  cases evs with
  | nil => simpa [SendRun] using h
  | cons ev evs =>
    simp only [SendRun] at h
    simp only [reduceCtorEq, false_iff, not_le]
    exact h.1

theorem recvRun_nil_iff (env : Env) (fd : Int) (n : Nat) (d : Int)
    (log : Log) (evs : List Event) (h : RecvRun env fd n d log evs) :
    evs = [] ↔ (n : Int) ≤ d := by
  cases evs with
  | nil => simpa [RecvRun] using h
  | cons ev evs =>
    simp only [RecvRun] at h
    simp only [reduceCtorEq, false_iff, not_le]
    exact h.1

/-- Every call of a run of the send loop is the call at the bytes transferred
so far, and another call follows exactly when the result is positive and the
total is still below the requested size. -/
theorem sendRun_calls (env : Env) (fd : Int) (data : List Byte) (n : Nat) (evs : List Event) :
    ∀ (d : Int) (log : Log), SendRun env fd data n d log evs →
      ∀ (i : Nat) (ev : Event), evs[i]? = some ev →
        ev = sendCall env fd data n (d + sentCount (evs.take i)) (log ++ evs.take i) ∧
        d + sentCount (evs.take i) < (n : Int) ∧
        (i + 1 < evs.length ↔ 0 < ev.result ∧ d + sentCount (evs.take (i + 1)) < (n : Int)) := by
  induction evs with
  | nil => intro d log _ i ev h; simp at h
  | cons ev0 evs ih =>
    intro d log h i ev hi
    simp only [SendRun] at h
    obtain ⟨hlt, hev, hrest⟩ := h
    have hs0 : sentCount [ev0] = if 0 < ev0.result then ev0.result else 0 := by
      rw [hev]; simp [sentCount, sendCall, Event.result]
    have hs : ∀ l, sentCount (ev0 :: l) = sentCount [ev0] + sentCount l := fun l =>
      sentCount_append [ev0] l
    cases i with
    | zero =>
      simp only [List.getElem?_cons_zero, Option.some.injEq] at hi
      subst hi
      refine ⟨by simpa [sentCount] using hev, by simpa [sentCount] using hlt, ?_⟩
      simp only [List.length_cons, List.take_succ_cons, List.take_zero, hs0, zero_add]
      by_cases hr : 0 < ev0.result
      · rw [if_pos hr] at hrest
        have hnil := sendRun_nil_iff env fd data n _ _ evs hrest
        rw [if_pos hr]
        constructor
        · intro hlen
          have : evs ≠ [] := by intro h0; rw [h0] at hlen; simp at hlen
          exact ⟨hr, by by_contra hc; exact this (hnil.mpr (by omega))⟩
        · intro ⟨_, h2⟩
          have : evs ≠ [] := fun h0 => by have := hnil.mp h0; omega
          have := List.length_pos.mpr this
          omega
      · rw [if_neg hr] at hrest
        subst hrest
        simp [hr]
    | succ j =>
      simp only [List.getElem?_cons_succ] at hi
      by_cases hr : 0 < ev0.result
      · rw [if_pos hr] at hrest
        obtain ⟨e1, e2, e3⟩ := ih _ _ hrest j ev hi
        rw [if_pos hr] at hs0
        simp only [List.take_succ_cons, List.length_cons, hs (evs.take j),
          hs (evs.take (j + 1)), hs0]
        refine ⟨?_, by omega, ?_⟩
        · rw [e1]; congr 1
          · omega
          · simp
        · rw [Nat.add_lt_add_iff_right, e3]
          constructor <;> (intro ⟨a, b⟩; exact ⟨a, by omega⟩)
      · rw [if_neg hr] at hrest
        subst hrest
        simp at hi

theorem recvRun_calls (env : Env) (fd : Int) (n : Nat) (evs : List Event) :
    ∀ (d : Int) (log : Log), RecvRun env fd n d log evs →
      ∀ (i : Nat) (ev : Event), evs[i]? = some ev →
        ev = recvCall env fd n (d + recvCount (evs.take i)) (log ++ evs.take i) ∧
        d + recvCount (evs.take i) < (n : Int) ∧
        (i + 1 < evs.length ↔ 0 < ev.result ∧ d + recvCount (evs.take (i + 1)) < (n : Int)) := by
  induction evs with
  | nil => intro d log _ i ev h; simp at h
  | cons ev0 evs ih =>
    intro d log h i ev hi
    simp only [RecvRun] at h
    obtain ⟨hlt, hev, hrest⟩ := h
    have hs0 : recvCount [ev0] = if 0 < ev0.result then ev0.result else 0 := by
      rw [hev]; simp [recvCount, recvCall, Event.result]
    have hs : ∀ l, recvCount (ev0 :: l) = recvCount [ev0] + recvCount l := fun l =>
      recvCount_append [ev0] l
    cases i with
    | zero =>
      simp only [List.getElem?_cons_zero, Option.some.injEq] at hi
      subst hi
      refine ⟨by simpa [recvCount] using hev, by simpa [recvCount] using hlt, ?_⟩
      simp only [List.length_cons, List.take_succ_cons, List.take_zero, hs0, zero_add]
      by_cases hr : 0 < ev0.result
      · rw [if_pos hr] at hrest
        have hnil := recvRun_nil_iff env fd n _ _ evs hrest
        rw [if_pos hr]
        constructor
        · intro hlen
          have : evs ≠ [] := by intro h0; rw [h0] at hlen; simp at hlen
          exact ⟨hr, by by_contra hc; exact this (hnil.mpr (by omega))⟩
        · intro ⟨_, h2⟩
          have : evs ≠ [] := fun h0 => by have := hnil.mp h0; omega
          have := List.length_pos.mpr this
          omega
      · rw [if_neg hr] at hrest
        subst hrest
        simp [hr]
    | succ j =>
      simp only [List.getElem?_cons_succ] at hi
      by_cases hr : 0 < ev0.result
      · rw [if_pos hr] at hrest
        obtain ⟨e1, e2, e3⟩ := ih _ _ hrest j ev hi
        rw [if_pos hr] at hs0
        simp only [List.take_succ_cons, List.length_cons, hs (evs.take j),
          hs (evs.take (j + 1)), hs0]
        refine ⟨?_, by omega, ?_⟩
        · rw [e1]; congr 1
          · omega
          · simp
        · rw [Nat.add_lt_add_iff_right, e3]
          constructor <;> (intro ⟨a, b⟩; exact ⟨a, by omega⟩)
      · rw [if_neg hr] at hrest
        subst hrest
        simp at hi

theorem sendCall_eq_remainderSend (env : Env) (fd : Int) (data : List Byte) (n : Nat)
    (hn : n ≤ INT_MAX) (d : Int) (hd : 0 ≤ d) (h : d < (n : Int)) (log : Log) :
    sendCall env fd data n d log = remainderSend env fd data n d log := by
  have hc := count_eq n hn d hd h
  have ht : ((n : Int) - d).toNat = n - d.toNat := by omega
  simp only [sendCall, remainderSend, hc, ht]

theorem recvCall_eq_remainderRecv (env : Env) (fd : Int) (n : Nat)
    (hn : n ≤ INT_MAX) (d : Int) (hd : 0 ≤ d) (h : d < (n : Int)) (log : Log) :
    recvCall env fd n d log = remainderRecv env fd n d log := by
  have hc := count_eq n hn d hd h
  simp only [recvCall, remainderRecv, hc]

/-- C6: for every requested length `n ≤ INT_MAX` and every behaviour of a
well-behaved primitive, `sendComplete` (resp. `recvComplete`) calls the primitive
on the not-yet-transferred remainder (offset = bytes transferred so far, count =
`n` minus that), calls it again exactly while the result is positive and the
running total is below `n`, and returns the sum of the positive results; it
returns `n` exactly when no call returned a non-positive result. -/
theorem transfer_loops_spec (env : Env) (hwb : env.WellBehaved) (fd : Int)
    (data : List Byte) (n : Nat) (hn : n ≤ INT_MAX) (log : Log) :
    (∃ evs ret, sendComplete env fd data n log = some (ret, log ++ evs) ∧
      (ret : Int) = sentCount evs ∧
      (∀ (i : Nat) (ev : Event), evs[i]? = some ev →
        ev = remainderSend env fd data n (sentCount (evs.take i)) (log ++ evs.take i) ∧
        (i + 1 < evs.length ↔ 0 < ev.result ∧ sentCount (evs.take (i + 1)) < (n : Int))) ∧
      (evs = [] ↔ n = 0) ∧
      (ret = n ↔ ∀ ev ∈ evs, 0 < ev.result)) ∧
    (∃ evs ret data1, recvComplete env fd data n log = some (ret, data1, log ++ evs) ∧
      (ret : Int) = recvCount evs ∧
      (∀ (i : Nat) (ev : Event), evs[i]? = some ev →
        ev = remainderRecv env fd n (recvCount (evs.take i)) (log ++ evs.take i) ∧
        (i + 1 < evs.length ↔ 0 < ev.result ∧ recvCount (evs.take (i + 1)) < (n : Int))) ∧
      (evs = [] ↔ n = 0) ∧
      (ret = n ↔ ∀ ev ∈ evs, 0 < ev.result)) := by
  constructor
  · obtain ⟨evs, ret, h1, h2, _, _, h5, hrun⟩ := sendComplete_wb env hwb fd data n log
    refine ⟨evs, ret, h1, h2, ?_, ?_, h5⟩
    · intro i ev hi
      obtain ⟨e1, e2, e3⟩ := sendRun_calls env fd data n evs 0 log hrun i ev hi
      simp only [zero_add] at e1 e2 e3
      exact ⟨by rw [e1, sendCall_eq_remainderSend env fd data n hn _ (sentCount_nonneg _) e2],
        e3⟩
    · rw [sendRun_nil_iff env fd data n 0 log evs hrun]; omega
  · obtain ⟨evs, h1, _, _, h5, hrun⟩ := recvComplete_wb env hwb fd data n log
    have hle := recvRun_le env hwb fd n evs 0 log hrun (by omega)
    refine ⟨evs, (received evs).length, applyRecv data evs, h1, hle.2, ?_, ?_, h5⟩
    · intro i ev hi
      obtain ⟨e1, e2, e3⟩ := recvRun_calls env fd n evs 0 log hrun i ev hi
      simp only [zero_add] at e1 e2 e3
      exact ⟨by rw [e1, recvCall_eq_remainderRecv env fd n hn _ (recvCount_nonneg _) e2], e3⟩
    · rw [recvRun_nil_iff env fd n 0 log evs hrun]; omega

/-- Witness of C6: five bytes for a socket that takes three. -/
theorem transfer_loops_spec_witness :
    (mockEnv 3 [1, 2]).WellBehaved ∧ 5 ≤ INT_MAX ∧
    (∃ evs ret, sendComplete (mockEnv 3 [1, 2]) 3 [10, 11, 12, 13, 14] 5 [] = some (ret, [] ++ evs) ∧
      (ret : Int) = sentCount evs ∧
      (∀ (i : Nat) (ev : Event), evs[i]? = some ev →
        ev = remainderSend (mockEnv 3 [1, 2]) 3 [10, 11, 12, 13, 14] 5 (sentCount (evs.take i))
              ([] ++ evs.take i) ∧
        (i + 1 < evs.length ↔ 0 < ev.result ∧ sentCount (evs.take (i + 1)) < ((5 : Nat) : Int))) ∧
      (evs = [] ↔ 5 = 0) ∧
      (ret = 5 ↔ ∀ ev ∈ evs, 0 < ev.result)) :=
  ⟨mockEnv_wellBehaved 3 [1, 2], by decide,
    (transfer_loops_spec (mockEnv 3 [1, 2]) (mockEnv_wellBehaved 3 [1, 2]) 3
      [10, 11, 12, 13, 14] 5 (by decide) []).1⟩

/-! ## The exchange for every behaviour of the primitives -/

/-- The read of the response code returns, whatever `recv` does. -/
theorem recvResponseCode_total (env : Env) (fd : Int) (didSendCommand : Bool) (log : Log) :
    ∃ b obj evs, recvResponseCode env fd didSendCommand log = some (b, obj, log ++ evs) ∧
      (∀ e ∈ evs, e.isRecv = true) ∧ (didSendCommand = false → evs = [] ∧ b = false) := by
  cases didSendCommand with
  | false => exact ⟨false, [0], [], by simp [recvResponseCode], by simp, fun _ => ⟨rfl, rfl⟩⟩
  | true =>
    obtain ⟨evs, h1, h2⟩ := recvComplete_run env fd [0] 1 log
    refine ⟨if (recvCount evs).toNat ≠ 1 then false else true, applyRecv [0] evs, evs, ?_,
      recvRun_isRecv env fd 1 evs 0 log h2, fun h => by simp at h⟩
    simp only [recvResponseCode, if_true, h1]

/-- The read of the additional response data returns, whatever `recv` does. -/
theorem recvResponseData_total (env : Env) (fd : Int) (didSendCommand : Bool) (c : Byte)
    (log : Log) :
    ∃ b evs, recvResponseData env fd didSendCommand c log = some (b, log ++ evs) ∧
      (∀ e ∈ evs, e.isRecv = true) ∧ (didSendCommand = false → evs = [] ∧ b = false) := by
  cases didSendCommand with
  | false =>
    exact ⟨false, [], by simp [recvResponseData_false], by simp, fun _ => ⟨rfl, rfl⟩⟩
  | true =>
    unfold recvResponseData
    by_cases h1 : c = kQuerySuccess
    · obtain ⟨evs, e1, e2⟩ := recvComplete_run env fd [0] 1 log
      refine ⟨if (recvCount evs).toNat ≠ 1 then false else true, evs, ?_,
        recvRun_isRecv env fd 1 evs 0 log e2, fun h => by simp at h⟩
      simp only [if_pos h1, if_true, e1]
    · by_cases h2 : c = kFailure
      · obtain ⟨evs, e1, e2⟩ := recvComplete_run env fd [0, 0] 2 log
        refine ⟨if (recvCount evs).toNat ≠ 2 then false else true, evs, ?_,
          recvRun_isRecv env fd 2 evs 0 log e2, fun h => by simp at h⟩
        simp only [if_neg h1, if_pos h2, if_true, e1]
      · by_cases h3 : c = kSuccess
        · exact ⟨true, [], by rw [if_neg h1, if_neg h2]; simp [h3], by simp,
            fun h => by simp at h⟩
        · exact ⟨false, [], by simp [h1, h2, h3], by simp, fun h => by simp at h⟩

/-- The exchange returns for every behaviour of the primitives; its trace is
the calls of the send loop followed by `recv` calls, and none of the latter
when the frame was not sent whole. -/
theorem sendCommand_total (env : Env) (fd : Int) (data : List Byte) (size : Nat) (log : Log) :
    ∃ b evs1 evs2, sendCommand env fd (some data) size log = some (b, log ++ (evs1 ++ evs2)) ∧
      sendComplete env fd data size log = some ((sentCount evs1).toNat, log ++ evs1) ∧
      SendRun env fd data size 0 log evs1 ∧ (∀ e ∈ evs2, e.isRecv = true) ∧
      ((sentCount evs1).toNat ≠ size → evs2 = [] ∧ b = false) := by
  obtain ⟨evs1, h1, h2⟩ := sendComplete_run env fd data size log
  obtain ⟨b1, obj, evsA, hA, hrA, hfA⟩ := recvResponseCode_total env fd
    (if (sentCount evs1).toNat ≠ size then false else true) (log ++ evs1)
  obtain ⟨b2, evsB, hB, hrB, hfB⟩ := recvResponseData_total env fd b1 (charValue obj)
    (log ++ evs1 ++ evsA)
  refine ⟨b2, evs1, evsA ++ evsB, ?_, h1, h2, ?_, ?_⟩
  · simp only [sendCommand, h1, hA, hB]
    simp
  · intro e he
    rcases List.mem_append.mp he with h | h
    · exact hrA e h
    · exact hrB e h
  · intro hne
    obtain ⟨a1, a2⟩ := hfA (by simp [hne])
    obtain ⟨a3, a4⟩ := hfB a2
    exact ⟨by rw [a1, a3]; rfl, a4⟩

/-- The first call of an exchange offers the whole frame to `send`. -/
theorem sendCommand_first_call (env : Env) (fd : Int) (data : List Byte) (size : Nat)
    (h0 : 0 < size) (hn : size ≤ INT_MAX) (log : Log) :
    ∃ b rest, sendCommand env fd (some data) size log
      = some (b, log ++ Event.send fd 0 size (data.take size)
          (env.send log fd 0 size (data.take size)) :: rest) := by
  obtain ⟨b, evs1, evs2, h1, _, h3, _⟩ := sendCommand_total env fd data size log
  cases evs1 with
  | nil =>
    simp only [SendRun] at h3
    omega
  | cons ev evs =>
    simp only [SendRun] at h3
    obtain ⟨_, hev, _⟩ := h3
    have hc : toInt32 (size : Int) = (size : Int) := by
      have := count_eq size hn 0 (le_refl _) (by omega)
      simpa using this
    simp only [sendCall, sub_zero, hc, Int.toNat_zero, List.drop_zero, Int.toNat_ofNat] at hev
    refine ⟨b, evs ++ evs2, ?_⟩
    rw [h1, hev]
    simp

/-- C10: for `sendBeginSession`, `sendSynch` and `sendTrigger` and any two
initial contents of the command buffer, the frame handed to the transport, the
result, and the whole trace of the exchange (with every byte sequence offered
to `send`) are identical given the same arguments; every byte of the frame is
determined by the arguments of the current call, and the first call of `send`
offers exactly that frame. -/
theorem frames_independent_of_buffer (env : Env) (e : Endian) (c1 c2 : EGIConnection)
    (h1 : c1.WellFormed) (h2 : c2.WellFormed) (hsock : c1.m_socket = c2.m_socket)
    (systemSpec : List Byte) (hspec : 4 ≤ systemSpec.length)
    (code : List Byte) (hcode : 4 ≤ code.length) (timeStamp msDuration : Int) (log : Log) :
    ((sendBeginSessionBuffer c1 systemSpec).map frameOf = some (kQuery :: systemSpec.take 4) ∧
      (sendBeginSessionBuffer c2 systemSpec).map frameOf = some (kQuery :: systemSpec.take 4) ∧
      (sendBeginSession env c1 systemSpec log).map (fun r => (r.1, r.2.2))
        = (sendBeginSession env c2 systemSpec log).map (fun r => (r.1, r.2.2)) ∧
      ∃ b rest, (sendBeginSession env c1 systemSpec log).map (fun r => (r.1, r.2.2))
        = some (b, log ++ Event.send c1.m_socket 0 5 (kQuery :: systemSpec.take 4)
            (env.send log c1.m_socket 0 5 (kQuery :: systemSpec.take 4)) :: rest)) ∧
    ((sendSynchBuffer e c1 timeStamp).map frameOf = some (kTimeSynch :: intBytes e timeStamp) ∧
      (sendSynchBuffer e c2 timeStamp).map frameOf = some (kTimeSynch :: intBytes e timeStamp) ∧
      (sendSynch env e c1 timeStamp log).map (fun r => (r.1, r.2.2))
        = (sendSynch env e c2 timeStamp log).map (fun r => (r.1, r.2.2)) ∧
      ∃ b rest, (sendSynch env e c1 timeStamp log).map (fun r => (r.1, r.2.2))
        = some (b, log ++ Event.send c1.m_socket 0 5 (kTimeSynch :: intBytes e timeStamp)
            (env.send log c1.m_socket 0 5 (kTimeSynch :: intBytes e timeStamp)) :: rest)) ∧
    ((sendTriggerBuffer e c1 code timeStamp msDuration).map frameOf
        = some ([kEventDataStream] ++ ushortBytes e 25 ++ intBytes e timeStamp
            ++ intBytes e msDuration ++ code.take 4 ++ List.replicate 13 0) ∧
      (sendTriggerBuffer e c2 code timeStamp msDuration).map frameOf
        = some ([kEventDataStream] ++ ushortBytes e 25 ++ intBytes e timeStamp
            ++ intBytes e msDuration ++ code.take 4 ++ List.replicate 13 0) ∧
      (sendTrigger env e c1 code timeStamp msDuration log).map (fun r => (r.1, r.2.2))
        = (sendTrigger env e c2 code timeStamp msDuration log).map (fun r => (r.1, r.2.2)) ∧
      ∃ b rest, (sendTrigger env e c1 code timeStamp msDuration log).map (fun r => (r.1, r.2.2))
        = some (b, log ++ Event.send c1.m_socket 0 28
            ([kEventDataStream] ++ ushortBytes e 25 ++ intBytes e timeStamp
              ++ intBytes e msDuration ++ code.take 4 ++ List.replicate 13 0)
            (env.send log c1.m_socket 0 28
              ([kEventDataStream] ++ ushortBytes e 25 ++ intBytes e timeStamp
                ++ intBytes e msDuration ++ code.take 4 ++ List.replicate 13 0)) :: rest)) := by
  obtain ⟨q1, eq1, _, fq1⟩ := sendBeginSessionBuffer_eq c1 h1 systemSpec hspec
  obtain ⟨q2, eq2, _, fq2⟩ := sendBeginSessionBuffer_eq c2 h2 systemSpec hspec
  obtain ⟨s1, es1, _, fs1⟩ := sendSynchBuffer_eq e c1 h1 timeStamp
  obtain ⟨s2, es2, _, fs2⟩ := sendSynchBuffer_eq e c2 h2 timeStamp
  obtain ⟨t1, et1, _, ft1⟩ := sendTriggerBuffer_eq e c1 h1 code hcode timeStamp msDuration
  obtain ⟨t2, et2, _, ft2⟩ := sendTriggerBuffer_eq e c2 h2 code hcode timeStamp msDuration
  obtain ⟨bq, rq, wq⟩ := sendCommand_first_call env c1.m_socket q1 5 (by omega) (by decide) log
  obtain ⟨bs, rs, ws⟩ := sendCommand_first_call env c1.m_socket s1 5 (by omega) (by decide) log
  obtain ⟨bt, rt, wt⟩ := sendCommand_first_call env c1.m_socket t1 28 (by omega) (by decide) log
  refine ⟨⟨?_, ?_, ?_, bq, rq, ?_⟩, ⟨?_, ?_, ?_, bs, rs, ?_⟩, ⟨?_, ?_, ?_, bt, rt, ?_⟩⟩
  · rw [eq1, Option.map_some', frameOf, fq1]; rfl
  · rw [eq2, Option.map_some', frameOf, fq2]; rfl
  · simp only [sendBeginSession, eq1, eq2, ← hsock,
      sendCommand_congr env c1.m_socket q1 q2 5 (fq1.trans fq2.symm) log]
    cases sendCommand env c1.m_socket (some q2) 5 log <;> rfl
  · simp only [sendBeginSession, eq1, wq, Option.map_some', fq1]
    rfl
  · rw [es1, Option.map_some', frameOf, fs1]; rfl
  · rw [es2, Option.map_some', frameOf, fs2]; rfl
  · simp only [sendSynch, es1, es2, ← hsock,
      sendCommand_congr env c1.m_socket s1 s2 5 (fs1.trans fs2.symm) log]
    cases sendCommand env c1.m_socket (some s2) 5 log <;> rfl
  · simp only [sendSynch, es1, ws, Option.map_some', fs1]
    rfl
  · rw [et1, Option.map_some', frameOf, ft1]
  · rw [et2, Option.map_some', frameOf, ft2]
  · simp only [sendTrigger, et1, et2, ← hsock,
      sendCommand_congr env c1.m_socket t1 t2 28 (ft1.trans ft2.symm) log]
    cases sendCommand env c1.m_socket (some t2) 28 log <;> rfl
  · simp only [sendTrigger, et1, wt, Option.map_some', ft1]
    rfl

/-- A connection object whose command buffer is filled with stale `'Q'` bytes. -/
theorem staleConnection_wellFormed :
    EGIConnection.WellFormed ⟨3, List.replicate commandBufferSize kQuery⟩ := by
  simp [EGIConnection.WellFormed]

/-- Witness of C10: a zeroed buffer and a buffer full of stale bytes. -/
theorem frames_independent_of_buffer_witness :
    mockConnection.WellFormed ∧
    EGIConnection.WellFormed ⟨3, List.replicate commandBufferSize kQuery⟩ ∧
    mockConnection.m_socket = (EGIConnection.mk 3 (List.replicate commandBufferSize kQuery)).m_socket ∧
    4 ≤ kBigEndian.length ∧ 4 ≤ [charByte 'A', charByte 'B', 0, 0].length ∧
    (sendSynchBuffer Endian.little mockConnection 100).map frameOf
      = some (kTimeSynch :: intBytes Endian.little 100) ∧
    (sendSynchBuffer Endian.little ⟨3, List.replicate commandBufferSize kQuery⟩ 100).map frameOf
      = some (kTimeSynch :: intBytes Endian.little 100) ∧
    (sendSynch (mockEnv 100 [kSuccess]) Endian.little mockConnection 100 []).map
        (fun r => (r.1, r.2.2))
      = (sendSynch (mockEnv 100 [kSuccess]) Endian.little
          ⟨3, List.replicate commandBufferSize kQuery⟩ 100 []).map (fun r => (r.1, r.2.2)) ∧
    ∃ b rest, (sendSynch (mockEnv 100 [kSuccess]) Endian.little mockConnection 100 []).map
        (fun r => (r.1, r.2.2))
      = some (b, [] ++ Event.send mockConnection.m_socket 0 5
          (kTimeSynch :: intBytes Endian.little 100)
          ((mockEnv 100 [kSuccess]).send [] mockConnection.m_socket 0 5
            (kTimeSynch :: intBytes Endian.little 100)) :: rest) :=
  ⟨mockConnection_wellFormed, staleConnection_wellFormed, rfl, by decide, by decide,
    (frames_independent_of_buffer (mockEnv 100 [kSuccess]) Endian.little mockConnection
      ⟨3, List.replicate commandBufferSize kQuery⟩ mockConnection_wellFormed
      staleConnection_wellFormed rfl kBigEndian (by decide)
      [charByte 'A', charByte 'B', 0, 0] (by decide) 100 50 []).2.1⟩

/-! ## The exchange, run by run -/

/-- The exchange as the sequence of its transfer loops, for every behaviour of
the primitives: the send loop, then the read of the response code if the frame
was sent whole, then the read of the version after `'I'` or of the error code
after `'F'` if the code was read. -/
theorem sendCommand_runs (env : Env) (fd : Int) (data : List Byte) (size : Nat) (log : Log) :
    ∃ b evs1 evsA evsB,
      sendCommand env fd (some data) size log = some (b, log ++ (evs1 ++ (evsA ++ evsB))) ∧
      SendRun env fd data size 0 log evs1 ∧
      (((sentCount evs1).toNat ≠ size ∧ evsA = [] ∧ evsB = [] ∧ b = false) ∨
       ((sentCount evs1).toNat = size ∧ RecvRun env fd 1 0 (log ++ evs1) evsA ∧
        (((recvCount evsA).toNat ≠ 1 ∧ evsB = [] ∧ b = false) ∨
         ((recvCount evsA).toNat = 1 ∧
          ((charValue (applyRecv [0] evsA) = kQuerySuccess ∧
              RecvRun env fd 1 0 (log ++ evs1 ++ evsA) evsB ∧
              (b = true ↔ (recvCount evsB).toNat = 1)) ∨
           (charValue (applyRecv [0] evsA) = kFailure ∧
              RecvRun env fd 2 0 (log ++ evs1 ++ evsA) evsB ∧
              (b = true ↔ (recvCount evsB).toNat = 2)) ∨
           (charValue (applyRecv [0] evsA) ≠ kQuerySuccess ∧
              charValue (applyRecv [0] evsA) ≠ kFailure ∧ evsB = [] ∧
              (b = true ↔ charValue (applyRecv [0] evsA) = kSuccess))))))) := by
  have hIF : kQuerySuccess ≠ kFailure := by decide
  obtain ⟨evs1, h1, h2⟩ := sendComplete_run env fd data size log
  by_cases hs : (sentCount evs1).toNat = size
  · obtain ⟨evsA, hA1, hA2⟩ := recvComplete_run env fd [0] 1 (log ++ evs1)
    by_cases hk : (recvCount evsA).toNat = 1
    · by_cases hcI : charValue (applyRecv [0] evsA) = kQuerySuccess
      · obtain ⟨evsB, hB1, hB2⟩ := recvComplete_run env fd [0] 1 (log ++ evs1 ++ evsA)
        refine ⟨decide ((recvCount evsB).toNat = 1), evs1, evsA, evsB, ?_, h2,
          Or.inr ⟨hs, hA2, Or.inr ⟨hk, Or.inl ⟨hcI, hB2, by simp⟩⟩⟩⟩
        simp only [sendCommand, h1, hs, ne_eq, not_true_eq_false, if_false, recvResponseCode,
          if_true, hA1, hk, recvResponseData, hcI, hB1]
        simp
      · by_cases hcF : charValue (applyRecv [0] evsA) = kFailure
        · obtain ⟨evsB, hB1, hB2⟩ := recvComplete_run env fd [0, 0] 2 (log ++ evs1 ++ evsA)
          refine ⟨decide ((recvCount evsB).toNat = 2), evs1, evsA, evsB, ?_, h2,
            Or.inr ⟨hs, hA2, Or.inr ⟨hk, Or.inr (Or.inl ⟨hcF, hB2, by simp⟩)⟩⟩⟩
          simp only [sendCommand, h1, hs, ne_eq, not_true_eq_false, if_false, recvResponseCode,
            if_true, hA1, hk, recvResponseData, hcF, hIF.symm, hB1]
          simp
        · refine ⟨decide (charValue (applyRecv [0] evsA) = kSuccess), evs1, evsA, [], ?_, h2,
            Or.inr ⟨hs, hA2, Or.inr ⟨hk, Or.inr (Or.inr ⟨hcI, hcF, rfl, by simp⟩)⟩⟩⟩
          simp only [sendCommand, h1, hs, ne_eq, not_true_eq_false, if_false, recvResponseCode,
            if_true, hA1, hk, recvResponseData, hcI, hcF]
          by_cases hcZ : charValue (applyRecv [0] evsA) = kSuccess <;> simp [hcZ]
    · refine ⟨false, evs1, evsA, [], ?_, h2, Or.inr ⟨hs, hA2, Or.inl ⟨hk, rfl, rfl⟩⟩⟩
      simp only [sendCommand, h1, hs, ne_eq, not_true_eq_false, if_false, recvResponseCode,
        if_true, hA1, hk, not_false_eq_true, recvResponseData_false]
      simp
  · refine ⟨false, evs1, [], [], ?_, h2, Or.inl ⟨hs, rfl, rfl, rfl⟩⟩
    simp only [sendCommand, h1, hs, ne_eq, not_false_eq_true, if_true, recvResponseCode,
      Bool.false_eq_true, if_false, recvResponseData_false]
    simp

/-- C12: for every public send method, in particular `sendBeginRecording`: if
the frame is fully transmitted and the device answers with the single byte
`'Z'`, the method returns true. -/
theorem send_success_response_true (env : Env) (hwb : env.WellBehaved) (e : Endian)
    (c : EGIConnection) (m : Command) (log : Log) (buf : List Byte) (size : Nat)
    (hargs : m.args e c = some (buf, size)) :
    (∃ b c1 evs, m.call env e c log = some (b, c1, log ++ evs) ∧
      (sentCount evs = (size : Int) → received evs = [kSuccess] → b = true)) ∧
    (∃ b evs, sendBeginRecording env c log = some (b, log ++ evs) ∧
      (sentCount evs = 1 → received evs = [kSuccess] → b = true)) := by
  have key : ∀ (buf : List Byte) (size : Nat),
      ∃ b evs, sendCommand env c.m_socket (some buf) size log = some (b, log ++ evs) ∧
        (sentCount evs = (size : Int) → received evs = [kSuccess] → b = true) := by
    intro buf size
    obtain ⟨evs1, sent, evs2, b, _, hcount, _, hs1, _, hr2, hcmd, _, hfull⟩ :=
      sendCommand_exchange env hwb c.m_socket buf size log
    refine ⟨b, evs1 ++ evs2, hcmd, ?_⟩
    rw [sentCount_exchange evs1 evs2 hr2, received_exchange evs1 evs2 hs1]
    intro hsent hrec
    have hZI : kSuccess ≠ kQuerySuccess := by decide
    have hZF : kSuccess ≠ kFailure := by decide
    rcases hfull (by omega) with ⟨h0, _, _⟩ | ⟨c0, rest, hrec2, _, _, hO⟩
    · rw [h0] at hrec; simp at hrec
    · rw [hrec2] at hrec
      simp only [List.cons.injEq] at hrec
      obtain ⟨hc0, _⟩ := hrec
      subst hc0
      exact (hO hZI hZF).2.1.mpr rfl
  constructor
  · obtain ⟨b, evs, hcmd, h⟩ := key buf size
    obtain ⟨c1, hcall⟩ := Command.call_of_sendCommand env e c m log buf size hargs b _ hcmd
    exact ⟨b, c1, evs, hcall, h⟩
  · obtain ⟨b, evs, hcmd, h⟩ := key [kBeginRecording] 1
    exact ⟨b, evs, hcmd, by simpa using h⟩

/-- Witness of C12: `sendBeginRecording` with a peer that answers `'Z'`. -/
theorem send_success_response_true_witness :
    (mockEnv 100 [kSuccess]).WellBehaved ∧
    Command.beginRecording.args Endian.little mockConnection = some ([kBeginRecording], 1) ∧
    sendBeginRecording (mockEnv 100 [kSuccess]) mockConnection []
      = some (true, [Event.send 3 0 1 [kBeginRecording] 1, Event.recv 3 0 1 1 [kSuccess]]) ∧
    ∃ b evs, sendBeginRecording (mockEnv 100 [kSuccess]) mockConnection [] = some (b, [] ++ evs) ∧
      (sentCount evs = 1 → received evs = [kSuccess] → b = true) :=
  ⟨mockEnv_wellBehaved 100 [kSuccess], rfl, by decide,
    (send_success_response_true (mockEnv 100 [kSuccess]) (mockEnv_wellBehaved 100 [kSuccess])
      Endian.little mockConnection Command.beginRecording [] [kBeginRecording] 1 rfl).2⟩

/-! ## Connection lifecycle -/

/-- What `connect` does, for every outcome of the operating-system calls: the
old socket is closed by `disconnect`, then `socket`, `setsockopt` and
`::connect` are called once each; the socket member is what `socket` returned,
and the result is true exactly when that is not 0 and `::connect` returned 0. -/
theorem connect_eq (env : Env) (c : EGIConnection) (address : List Byte) (port : Nat)
    (log evs0 : Log) (h0 : (disconnect c log).2 = log ++ evs0)
    (s : Int) (hs : s = env.socket (log ++ evs0))
    (r : Int) (hr : r = env.connect (log ++ evs0 ++ [Event.socket s, Event.setsockopt s]) s
      address port) :
    connect env c address port log
      = (decide (s ≠ 0 ∧ r = 0), { c with m_socket := s },
          log ++ evs0 ++ [Event.socket s, Event.setsockopt s, Event.connect s address port r]) := by
  have hb : (disconnect c log).1.m_commandBuffer = c.m_commandBuffer := by
    unfold disconnect
    split <;> rfl
  simp only [connect, h0, ← hs]
  simp only [List.append_assoc, List.singleton_append, List.cons_append, List.nil_append] at hr ⊢
  rw [← hr]
  refine Prod.ext ?_ (Prod.ext ?_ rfl)
  · by_cases h1 : s = 0 <;> by_cases h2 : r = 0 <;> simp [h1, h2]
  · simp only [hb]

theorem disconnect_log (c : EGIConnection) (log : Log) :
    (disconnect c log).2 = log ++ (if c.m_socket ≠ 0 then [Event.close c.m_socket] else []) := by
  unfold disconnect
  split <;> simp

theorem openHandles_append (log evs : Log) :
    openHandles (log ++ evs) = evs.foldl handleStep (openHandles log) := by
  simp [openHandles, List.foldl_append]

/-- C15: `disconnect` is idempotent: a second `disconnect` changes neither the
state nor the history the first one left, so the socket is closed at most once;
on an unconnected connection `disconnect` changes no state and makes no call;
after `disconnect` the connection is unconnected. -/
theorem disconnect_idempotent (c : EGIConnection) (log : Log) :
    disconnect (disconnect c log).1 (disconnect c log).2 = disconnect c log ∧
    (disconnect c log).1.m_socket = 0 ∧
    (disconnect c log).1.m_commandBuffer = c.m_commandBuffer ∧
    (disconnect c log).2
      = log ++ (if c.m_socket ≠ 0 then [Event.close c.m_socket] else []) ∧
    (c.m_socket = 0 → disconnect c log = (c, log)) := by
  refine ⟨?_, ?_, ?_, disconnect_log c log, ?_⟩
  · unfold disconnect
    by_cases h : c.m_socket = 0 <;> simp [h]
  · unfold disconnect
    by_cases h : c.m_socket = 0 <;> simp [h]
  · unfold disconnect
    by_cases h : c.m_socket = 0 <;> simp [h]
  · intro h
    simp [disconnect, h]

/-- C14: when `connect` is called on a connection that owns a socket `s`, the
first call is `close(s)` and only then is the new socket acquired; afterwards
the open descriptors are those of before without `s`, plus the new socket. If
`s` was the only open descriptor, at most one descriptor is open after the call
and it is the one the socket member holds. -/
theorem connect_closes_old (env : Env) (c : EGIConnection) (address : List Byte) (port : Nat)
    (log : Log) (hs : c.m_socket ≠ 0) :
    ∃ b s r,
      s = env.socket (log ++ [Event.close c.m_socket]) ∧
      connect env c address port log
        = (b, { c with m_socket := s },
            log ++ [Event.close c.m_socket, Event.socket s, Event.setsockopt s,
              Event.connect s address port r]) ∧
      openHandles (log ++ [Event.close c.m_socket]) = (openHandles log).erase c.m_socket ∧
      openHandles (log ++ [Event.close c.m_socket, Event.socket s, Event.setsockopt s,
          Event.connect s address port r])
        = (openHandles log).erase c.m_socket ++ (if 0 ≤ s then [s] else []) ∧
      (openHandles log = [c.m_socket] →
        openHandles (log ++ [Event.close c.m_socket]) = [] ∧
        (openHandles (log ++ [Event.close c.m_socket, Event.socket s, Event.setsockopt s,
          Event.connect s address port r])).length ≤ 1 ∧
        ∀ h ∈ openHandles (log ++ [Event.close c.m_socket, Event.socket s, Event.setsockopt s,
          Event.connect s address port r]), h = s) := by
  have hd : (disconnect c log).2 = log ++ [Event.close c.m_socket] := by
    rw [disconnect_log, if_pos hs]
  have h1 : openHandles (log ++ [Event.close c.m_socket]) = (openHandles log).erase c.m_socket := by
    rw [openHandles_append]; rfl
  have h2 : ∀ s r, openHandles (log ++ [Event.close c.m_socket, Event.socket s,
        Event.setsockopt s, Event.connect s address port r])
      = (openHandles log).erase c.m_socket ++ (if 0 ≤ s then [s] else []) := by
    intro s r
    rw [openHandles_append]
    simp only [List.foldl, handleStep]
    split <;> simp
  obtain ⟨s, hs1⟩ : ∃ s, s = env.socket (log ++ [Event.close c.m_socket]) := ⟨_, rfl⟩
  obtain ⟨r, hr⟩ : ∃ r, r = env.connect (log ++ [Event.close c.m_socket]
    ++ [Event.socket s, Event.setsockopt s]) s address port := ⟨_, rfl⟩
  refine ⟨decide (s ≠ 0 ∧ r = 0), s, r, hs1, ?_, h1, h2 s r, ?_⟩
  · rw [connect_eq env c address port log _ hd s hs1 r hr]
    simp
  · intro hown
    rw [h1, h2, hown]
    simp only [List.erase_cons_head, List.nil_append]
    refine ⟨trivial, ?_, ?_⟩
    · split <;> simp
    · intro h hh
      split at hh <;> simp at hh
      exact hh

/-- Witness of C14: a connection that owns socket 7 connects again. -/
theorem connect_closes_old_witness :
    (EGIConnection.mk 7 []).m_socket ≠ 0 ∧
    ∃ b s r,
      s = (mockEnv 0 []).socket ([Event.socket 7] ++ [Event.close (EGIConnection.mk 7 []).m_socket]) ∧
      connect (mockEnv 0 []) ⟨7, []⟩ driverAddress 55513 [Event.socket 7]
        = (b, { (EGIConnection.mk 7 []) with m_socket := s },
            [Event.socket 7] ++ [Event.close (EGIConnection.mk 7 []).m_socket, Event.socket s,
              Event.setsockopt s, Event.connect s driverAddress 55513 r]) ∧
      openHandles ([Event.socket 7] ++ [Event.close (EGIConnection.mk 7 []).m_socket])
        = (openHandles [Event.socket 7]).erase (EGIConnection.mk 7 []).m_socket :=
  ⟨by decide,
    (connect_closes_old (mockEnv 0 []) ⟨7, []⟩ driverAddress 55513 [Event.socket 7]
      (by decide)).imp fun _ h => h.imp fun _ h => h.imp fun _ h => ⟨h.1, h.2.1, h.2.2.1⟩⟩

/-! ## The demonstration driver and the event code -/

/-- The 4-byte copy of `sendTrigger` from a one-byte object reads beyond the
object. -/
theorem sendTriggerBuffer_one_byte (e : Endian) (c : EGIConnection) (b : Byte)
    (timeStamp msDuration : Int) :
    sendTriggerBuffer e c [b] timeStamp msDuration = none := by
  have hm : ∀ buf : List Byte, memcpy buf 11 [b] 4 = none := by
    intro buf; simp [memcpy]
  unfold sendTriggerBuffer
  simp only [Option.bind_eq_bind, Option.pure_def]
  cases storeByte c.m_commandBuffer 0 kEventDataStream with
  | none => rfl
  | some b1 =>
    simp only [Option.some_bind]
    cases memcpy b1 (0 + 1) (ushortBytes e 25) 2 with
    | none => rfl
    | some b2 =>
      simp only [Option.some_bind]
      cases memcpy b2 (0 + 1 + 2) (intBytes e timeStamp) 4 with
      | none => rfl
      | some b3 =>
        simp only [Option.some_bind]
        cases memcpy b3 (0 + 1 + 2 + 4) (intBytes e msDuration) 4 with
        | none => rfl
        | some b4 =>
          simp only [Option.some_bind]
          rw [show 0 + 1 + 2 + 4 + 4 = 11 from rfl, hm]
          rfl

/-- An iteration of the loop of the driver has no defined result. -/
theorem mainLoop_succ (env : Env) (e : Endian) (k i : Nat) (c : EGIConnection) (log : Log) :
    mainLoop env e (k + 1) i c log = none := by
  simp only [mainLoop]
  cases sendAttention env c log with
  | none => rfl
  | some r1 =>
    obtain ⟨_, log1⟩ := r1
    simp only
    cases sendSynch env e c (i : Int) log1 with
    | none => rfl
    | some r2 =>
      obtain ⟨_, c2, log2⟩ := r2
      simp only [sendTrigger, sendTriggerBuffer_one_byte]

/-- C16: the object the demonstration driver passes as event code is one byte
(the `char mark`), so in every iteration of its loop the 4-byte copy of
`sendTrigger` reads beyond the caller's object: the call has no defined result,
and neither has the driver. -/
theorem main_sendTrigger_reads_beyond_mark (env : Env) (e : Endian) (c : EGIConnection)
    (i : Nat) (log : Log) (memory buf : List Byte) :
    [markValue i].length = 1 ∧
    memcpy buf 11 [markValue i] 4 = none ∧
    sendTriggerBuffer e c [markValue i] (i : Int) 50 = none ∧
    sendTrigger env e c [markValue i] (i : Int) 50 log = none ∧
    mainLoop env e 26 0 c log = none ∧
    main env e memory = none := by
  refine ⟨rfl, by simp [memcpy], sendTriggerBuffer_one_byte e c _ _ _,
    by simp only [sendTrigger, sendTriggerBuffer_one_byte], mainLoop_succ env e 25 0 c log, ?_⟩
  simp only [main]
  cases sendBeginSession env (connect env (EGIConnection.new memory) driverAddress 55513 []).2.1
      kLittleEndian (connect env (EGIConnection.new memory) driverAddress 55513 []).2.2 with
  | none => rfl
  | some r1 =>
    obtain ⟨_, c1, log1⟩ := r1
    simp only
    cases sendBeginRecording env c1 log1 with
    | none => rfl
    | some r2 =>
      obtain ⟨_, log2⟩ := r2
      simp only [mainLoop_succ env e 25 0 c1 log2]

/-! ## Termination and bounds of the transfer loops -/

/-- A run of the send loop that starts with `d` bytes away makes at most
`n - d` calls: every call but the last adds at least one byte. -/
theorem sendRun_length (env : Env) (fd : Int) (data : List Byte) (n : Nat)
    (evs : List Event) : ∀ (d : Int) (log : Log), SendRun env fd data n d log evs →
      (evs.length : Int) ≤ max 0 ((n : Int) - d) := by
  induction evs with
  | nil => intro d log _; simp
  | cons ev evs ih =>
    intro d log h
    simp only [SendRun] at h
    obtain ⟨hlt, _, hrest⟩ := h
    by_cases hr : 0 < ev.result
    · rw [if_pos hr] at hrest
      have := ih _ _ hrest
      simp only [List.length_cons, Nat.cast_add, Nat.cast_one]
      omega
    · rw [if_neg hr] at hrest
      subst hrest
      simp only [List.length_cons, List.length_nil, Nat.cast_add, Nat.cast_one]
      omega

/-- A run of the receive loop that starts with `d` bytes here makes at most
`n - d` calls. -/
theorem recvRun_length (env : Env) (fd : Int) (n : Nat)
    (evs : List Event) : ∀ (d : Int) (log : Log), RecvRun env fd n d log evs →
      (evs.length : Int) ≤ max 0 ((n : Int) - d) := by
  induction evs with
  | nil => intro d log _; simp
  | cons ev evs ih =>
    intro d log h
    simp only [RecvRun] at h
    obtain ⟨hlt, _, hrest⟩ := h
    by_cases hr : 0 < ev.result
    · rw [if_pos hr] at hrest
      have := ih _ _ hrest
      simp only [List.length_cons, Nat.cast_add, Nat.cast_one]
      omega
    · rw [if_neg hr] at hrest
      subst hrest
      simp only [List.length_cons, List.length_nil, Nat.cast_add, Nat.cast_one]
      omega

/-- The run of the send loop is determined by the start and the behaviour of
the primitive. -/
theorem sendRun_unique (env : Env) (fd : Int) (data : List Byte) (n : Nat)
    (evs : List Event) : ∀ (evs2 : List Event) (d : Int) (log : Log),
      SendRun env fd data n d log evs → SendRun env fd data n d log evs2 → evs = evs2 := by
  induction evs with
  | nil =>
    intro evs2 d log h h2
    cases evs2 with
    | nil => rfl
    | cons ev2 evs2 =>
      simp only [SendRun] at h h2
      omega
  | cons ev evs ih =>
    intro evs2 d log h h2
    cases evs2 with
    | nil =>
      simp only [SendRun] at h h2
      omega
    | cons ev2 evs2 =>
      simp only [SendRun] at h h2
      obtain ⟨_, hev, hrest⟩ := h
      obtain ⟨_, hev2, hrest2⟩ := h2
      have he : ev2 = ev := by rw [hev, hev2]
      subst he
      by_cases hr : 0 < ev2.result
      · rw [if_pos hr] at hrest hrest2
        rw [ih _ _ _ hrest hrest2]
      · rw [if_neg hr] at hrest hrest2
        rw [hrest, hrest2]

/-- The run of the receive loop is determined by the start and the behaviour of
the primitive. -/
theorem recvRun_unique (env : Env) (fd : Int) (n : Nat)
    (evs : List Event) : ∀ (evs2 : List Event) (d : Int) (log : Log),
      RecvRun env fd n d log evs → RecvRun env fd n d log evs2 → evs = evs2 := by
  induction evs with
  | nil =>
    intro evs2 d log h h2
    cases evs2 with
    | nil => rfl
    | cons ev2 evs2 =>
      simp only [RecvRun] at h h2
      omega
  | cons ev evs ih =>
    intro evs2 d log h h2
    cases evs2 with
    | nil =>
      simp only [RecvRun] at h h2
      omega
    | cons ev2 evs2 =>
      simp only [RecvRun] at h h2
      obtain ⟨_, hev, hrest⟩ := h
      obtain ⟨_, hev2, hrest2⟩ := h2
      have he : ev2 = ev := by rw [hev, hev2]
      subst he
      by_cases hr : 0 < ev2.result
      · rw [if_pos hr] at hrest hrest2
        rw [ih _ _ _ hrest hrest2]
      · rw [if_neg hr] at hrest hrest2
        rw [hrest, hrest2]

/-- The bytes reported up to and including call `i` are the bytes reported
before it plus the bytes call `i` reports. -/
theorem sentCount_take_succ (evs : List Event) (i : Nat) (ev : Event)
    (h : evs[i]? = some ev) :
    sentCount (evs.take (i + 1)) = sentCount (evs.take i) + sentCount [ev] := by
  rw [List.take_succ, h, sentCount_append]; rfl

theorem recvCount_take_succ (evs : List Event) (i : Nat) (ev : Event)
    (h : evs[i]? = some ev) :
    recvCount (evs.take (i + 1)) = recvCount (evs.take i) + recvCount [ev] := by
  rw [List.take_succ, h, recvCount_append]; rfl

/-- For `n ≤ INT_MAX` every call of a run of the send loop is made at a
non-negative offset and asks for the remainder `n - offset ≥ 1`. -/
theorem sendRun_bounds (env : Env) (fd : Int) (data : List Byte) (n : Nat) (hn : n ≤ INT_MAX)
    (evs : List Event) : ∀ (d : Int) (log : Log), 0 ≤ d → SendRun env fd data n d log evs →
      ∀ ev ∈ evs, ev.isSend = true ∧ d ≤ ev.off ∧ ev.off + ev.count = (n : Int) ∧
        1 ≤ ev.count := by
  induction evs with
  | nil => intro d log _ _ ev hev; simp at hev
  | cons ev0 evs ih =>
    intro d log hd h ev hev
    simp only [SendRun] at h
    obtain ⟨hlt, hev0, hrest⟩ := h
    rcases List.mem_cons.mp hev with rfl | hmem
    · have hc := count_eq n hn d hd hlt
      rw [hev0]
      simp only [sendCall, Event.isSend, Event.off, Event.count]
      rw [hc]
      exact ⟨trivial, le_refl _, by omega, by omega⟩
    · by_cases hr : 0 < ev0.result
      · rw [if_pos hr] at hrest
        obtain ⟨h1, h2, h3, h4⟩ := ih _ _ (by omega) hrest ev hmem
        exact ⟨h1, by omega, h3, h4⟩
      · rw [if_neg hr] at hrest
        subst hrest
        simp at hmem

/-- For `n ≤ INT_MAX` every call of a run of the receive loop is made at a
non-negative offset and asks for the remainder `n - offset ≥ 1`. -/
theorem recvRun_bounds (env : Env) (fd : Int) (n : Nat) (hn : n ≤ INT_MAX)
    (evs : List Event) : ∀ (d : Int) (log : Log), 0 ≤ d → RecvRun env fd n d log evs →
      ∀ ev ∈ evs, ev.isRecv = true ∧ d ≤ ev.off ∧ ev.off + ev.count = (n : Int) ∧
        1 ≤ ev.count := by
  induction evs with
  | nil => intro d log _ _ ev hev; simp at hev
  | cons ev0 evs ih =>
    intro d log hd h ev hev
    simp only [RecvRun] at h
    obtain ⟨hlt, hev0, hrest⟩ := h
    rcases List.mem_cons.mp hev with rfl | hmem
    · have hc := count_eq n hn d hd hlt
      rw [hev0]
      simp only [recvCall, Event.isRecv, Event.off, Event.count]
      rw [hc]
      exact ⟨trivial, le_refl _, by omega, by omega⟩
    · by_cases hr : 0 < ev0.result
      · rw [if_pos hr] at hrest
        obtain ⟨h1, h2, h3, h4⟩ := ih _ _ (by omega) hrest ev hmem
        exact ⟨h1, by omega, h3, h4⟩
      · rw [if_neg hr] at hrest
        subst hrest
        simp at hmem

/-- With a well-behaved `recv` and `n ≤ INT_MAX`, every call of a run of the
receive loop stores its bytes below index `n` of the destination. -/
theorem recvRun_stores (env : Env) (hwb : env.WellBehaved) (fd : Int) (n : Nat)
    (hn : n ≤ INT_MAX) (evs : List Event) :
    ∀ (d : Int) (log : Log), 0 ≤ d → RecvRun env fd n d log evs →
      ∀ ev ∈ evs, ev.stored.length = ev.result.toNat ∧ ev.result ≤ ev.count ∧
        ev.off.toNat + ev.stored.length ≤ n := by
  induction evs with
  | nil => intro d log _ _ ev hev; simp at hev
  | cons ev0 evs ih =>
    intro d log hd h ev hev
    simp only [RecvRun] at h
    obtain ⟨hlt, hev0, hrest⟩ := h
    rcases List.mem_cons.mp hev with rfl | hmem
    · have hc := count_eq n hn d hd hlt
      have hw := hwb.2 log fd d (toInt32 ((n : Int) - d))
      rw [hev0]
      simp only [recvCall, Event.stored, Event.result, Event.off, Event.count]
      rw [hc] at hw ⊢
      obtain ⟨hw1, hw2⟩ := hw
      refine ⟨hw2, ?_, ?_⟩
      · by_cases hp : 0 < (env.recv log fd d ((n : Int) - d)).1
        · exact hw1 hp
        · omega
      · rw [hw2]
        by_cases hp : 0 < (env.recv log fd d ((n : Int) - d)).1
        · have := hw1 hp
          omega
        · omega
    · by_cases hr : 0 < ev0.result
      · rw [if_pos hr] at hrest
        exact ih _ _ (by omega) hrest ev hmem
      · rw [if_neg hr] at hrest
        subst hrest
        simp at hmem

/-- C17: `sendComplete` and `recvComplete` return for every requested length
`n ≤ INT_MAX` and every behaviour of the primitive (any amount of fuel from `n`
on gives the same result): every call asks for at least one byte, each
iteration either increases the transferred count by at least 1 or is the last
one, so the primitive is called at most `n` times, and not at all when `n = 0`. -/
theorem transfer_loops_terminate (env : Env) (fd : Int) (data : List Byte) (n : Nat)
    (hn : n ≤ INT_MAX) (log : Log) :
    (∃ evs ret, sendComplete env fd data n log = some (ret, log ++ evs) ∧
      (∀ fuel, n ≤ fuel → sendLoop env fd data n fuel 0 log = some ((ret : Int), log ++ evs)) ∧
      (∀ ev ∈ evs, ev.isSend = true ∧ 1 ≤ ev.count) ∧
      evs.length ≤ n ∧ (n = 0 → evs = []) ∧
      (∀ (i : Nat) (ev : Event), evs[i]? = some ev →
        (0 < ev.result ∧ sentCount (evs.take (i + 1)) = sentCount (evs.take i) + ev.result) ∨
        (ev.result ≤ 0 ∧ i + 1 = evs.length))) ∧
    (∃ evs ret data1, recvComplete env fd data n log = some (ret, data1, log ++ evs) ∧
      (∀ fuel, n ≤ fuel →
        recvLoop env fd n fuel 0 data log = some ((ret : Int), data1, log ++ evs)) ∧
      (∀ ev ∈ evs, ev.isRecv = true ∧ 1 ≤ ev.count) ∧
      evs.length ≤ n ∧ (n = 0 → evs = []) ∧
      (∀ (i : Nat) (ev : Event), evs[i]? = some ev →
        (0 < ev.result ∧ recvCount (evs.take (i + 1)) = recvCount (evs.take i) + ev.result) ∨
        (ev.result ≤ 0 ∧ i + 1 = evs.length))) := by
  constructor
  · obtain ⟨evs, h1, hrun⟩ := sendComplete_run env fd data n log
    have hnn := sentCount_nonneg evs
    have hlen := sendRun_length env fd data n evs 0 log hrun
    refine ⟨evs, (sentCount evs).toNat, h1, ?_, ?_, by omega, ?_, ?_⟩
    · intro fuel hf
      obtain ⟨evs2, h2, hrun2⟩ := sendLoop_run env fd data n fuel 0 log (le_refl _) (by omega)
      have he := sendRun_unique env fd data n evs2 evs 0 log hrun2 hrun
      subst he
      rw [h2, Int.toNat_of_nonneg hnn, zero_add]
    · intro ev hev
      obtain ⟨h3, _, _, h4⟩ := sendRun_bounds env fd data n hn evs 0 log (le_refl _) hrun ev hev
      exact ⟨h3, h4⟩
    · intro h0
      exact (sendRun_nil_iff env fd data n 0 log evs hrun).mpr (by omega)
    · intro i ev hi
      obtain ⟨e1, _, e3⟩ := sendRun_calls env fd data n evs 0 log hrun i ev hi
      have hlt : i < evs.length := (List.getElem?_eq_some_iff.mp hi).1
      by_cases hr : 0 < ev.result
      · left
        refine ⟨hr, ?_⟩
        rw [sentCount_take_succ evs i ev hi]
        simp only [zero_add] at e1
        rw [e1] at hr ⊢
        simp only [sendCall, Event.result] at hr
        simp only [sentCount, sendCall, Event.result, if_pos hr, add_zero]
      · right
        have : ¬ (i + 1 < evs.length) := fun h => hr (e3.mp h).1
        exact ⟨by omega, by omega⟩
  · obtain ⟨evs, h1, hrun⟩ := recvComplete_run env fd data n log
    have hnn := recvCount_nonneg evs
    have hlen := recvRun_length env fd n evs 0 log hrun
    refine ⟨evs, (recvCount evs).toNat, applyRecv data evs, h1, ?_, ?_, by omega, ?_, ?_⟩
    · intro fuel hf
      obtain ⟨evs2, h2, hrun2⟩ := recvLoop_run env fd n fuel 0 data log (le_refl _) (by omega)
      have he := recvRun_unique env fd n evs2 evs 0 log hrun2 hrun
      subst he
      rw [h2, Int.toNat_of_nonneg hnn, zero_add]
    · intro ev hev
      obtain ⟨h3, _, _, h4⟩ := recvRun_bounds env fd n hn evs 0 log (le_refl _) hrun ev hev
      exact ⟨h3, h4⟩
    · intro h0
      exact (recvRun_nil_iff env fd n 0 log evs hrun).mpr (by omega)
    · intro i ev hi
      obtain ⟨e1, _, e3⟩ := recvRun_calls env fd n evs 0 log hrun i ev hi
      have hlt : i < evs.length := (List.getElem?_eq_some_iff.mp hi).1
      by_cases hr : 0 < ev.result
      · left
        refine ⟨hr, ?_⟩
        rw [recvCount_take_succ evs i ev hi]
        simp only [zero_add] at e1
        rw [e1] at hr ⊢
        simp only [recvCall, Event.result] at hr
        simp only [recvCount, recvCall, Event.result, if_pos hr, add_zero]
      · right
        have : ¬ (i + 1 < evs.length) := fun h => hr (e3.mp h).1
        exact ⟨by omega, by omega⟩

/-- Witness of C17: five bytes through a socket that accepts three, and a peer
that answers two bytes and closes. -/
theorem transfer_loops_terminate_witness :
    5 ≤ INT_MAX ∧
    (∃ evs ret, sendComplete (mockEnv 3 [1, 2]) 3 [1, 2, 3, 4, 5] 5 [] = some (ret, [] ++ evs) ∧
      evs.length ≤ 5) ∧
    (∃ evs ret data1,
      recvComplete (mockEnv 3 [1, 2]) 3 [1, 2, 3, 4, 5] 5 [] = some (ret, data1, [] ++ evs) ∧
      evs.length ≤ 5) :=
  ⟨by decide,
    (transfer_loops_terminate (mockEnv 3 [1, 2]) 3 [1, 2, 3, 4, 5] 5 (by decide) []).1.imp
      (fun _ h => h.imp (fun _ h => ⟨h.1, h.2.2.2.1⟩)),
    (transfer_loops_terminate (mockEnv 3 [1, 2]) 3 [1, 2, 3, 4, 5] 5 (by decide) []).2.imp
      (fun _ h => h.imp (fun _ h => h.imp (fun _ h => ⟨h.1, h.2.2.2.1⟩)))⟩

/-- A store leaves the bytes above the stored range as they were. -/
theorem writeAt_above (bs : List Byte) : ∀ (dst : List Byte) (off i : Nat),
    off + bs.length ≤ i → (writeAt dst off bs)[i]? = dst[i]? := by
  induction bs with
  | nil => intro dst off i _; rfl
  | cons b bs ih =>
    intro dst off i h
    simp only [List.length_cons] at h
    rw [writeAt, ih _ _ _ (by omega), List.getElem?_set_ne (by omega)]

/-- Stores that all end at or below index `n` leave the object as it was from
index `n` on, and never change its size. -/
theorem applyRecv_above (n : Nat) (evs : List Event) : ∀ (data : List Byte),
    (∀ ev ∈ evs, ev.off.toNat + ev.stored.length ≤ n) →
      (applyRecv data evs).length = data.length ∧
      ∀ i, n ≤ i → (applyRecv data evs)[i]? = data[i]? := by
  induction evs with
  | nil => intro data _; exact ⟨rfl, fun _ _ => rfl⟩
  | cons ev evs ih =>
    intro data h
    have hrest : ∀ ev1 ∈ evs, ev1.off.toNat + ev1.stored.length ≤ n :=
      fun ev1 h1 => h ev1 (List.mem_cons_of_mem _ h1)
    have h0 := h ev (List.mem_cons_self _ _)
    cases ev with
    | recv fd off count result bytes =>
      simp only [Event.off, Event.stored] at h0
      obtain ⟨i1, i2⟩ := ih (writeAt data off.toNat bytes) hrest
      simp only [applyRecv]
      exact ⟨by rw [i1, writeAt_length], fun i hi => by
        rw [i2 i hi, writeAt_above _ _ _ _ (by omega)]⟩
    | send fd off count payload result => simpa only [applyRecv] using ih data hrest
    | socket result => simpa only [applyRecv] using ih data hrest
    | setsockopt fd => simpa only [applyRecv] using ih data hrest
    | connect fd address port result => simpa only [applyRecv] using ih data hrest
    | close fd => simpa only [applyRecv] using ih data hrest

/-- C18, counterexample: for the requested length `n = 2147483648` (above
`INT_MAX`) and a primitive that never reports more than it was asked for, the
one call of `recvComplete` is made at offset 0 with the count `-2147483648`:
offset plus count is not `n`. -/
theorem recvComplete_count_wraps :
    (mockEnv 3 [1, 2]).WellBehaved ∧
    recvComplete (mockEnv 3 [1, 2]) 3 [0] 2147483648 []
      = some (0, [0], [Event.recv 3 0 (-2147483648) 0 []]) ∧
    (Event.recv 3 0 (-2147483648) 0 []).off + (Event.recv 3 0 (-2147483648) 0 []).count
      ≠ ((2147483648 : Nat) : Int) :=
  ⟨mockEnv_wellBehaved 3 [1, 2], by decide, by decide⟩

/-- C18, amended: for every requested length `n ≤ INT_MAX` and a primitive that
never reports more bytes than it was asked for: in every call issued by
`sendComplete` and `recvComplete` the offset is non-negative and offset plus
count is `n`, the value returned never exceeds `n`, and every call of
`recvComplete` stores below index `n` of the destination, which is unchanged
from index `n` on; so in `sendCommand` the stores stay inside the 1-byte
response code, the 1-byte version and the 2-byte error code. -/
theorem transfer_loops_bounds (env : Env) (hwb : env.WellBehaved) (fd : Int)
    (data : List Byte) (n : Nat) (hn : n ≤ INT_MAX) (log : Log) :
    (∃ evs ret, sendComplete env fd data n log = some (ret, log ++ evs) ∧ ret ≤ n ∧
      ∀ ev ∈ evs, ev.isSend = true ∧ 0 ≤ ev.off ∧ ev.off + ev.count = (n : Int)) ∧
    (∃ evs ret data1, recvComplete env fd data n log = some (ret, data1, log ++ evs) ∧
      ret ≤ n ∧
      (∀ ev ∈ evs, ev.isRecv = true ∧ 0 ≤ ev.off ∧ ev.off + ev.count = (n : Int) ∧
        ev.off.toNat + ev.stored.length ≤ n) ∧
      data1.length = data.length ∧ ∀ i, n ≤ i → data1[i]? = data[i]?) ∧
    (∃ b evs1 evsA evsB,
      sendCommand env fd (some data) n log = some (b, log ++ (evs1 ++ (evsA ++ evsB))) ∧
      (∀ ev ∈ evs1, ev.isSend = true) ∧
      (∀ ev ∈ evsA, ev.isRecv = true ∧ 0 ≤ ev.off ∧ ev.off.toNat + ev.stored.length ≤ 1) ∧
      (∀ ev ∈ evsB, ev.isRecv = true ∧ 0 ≤ ev.off ∧
        ((charValue (applyRecv [0] evsA) = kQuerySuccess ∧
            ev.off.toNat + ev.stored.length ≤ 1) ∨
         (charValue (applyRecv [0] evsA) = kFailure ∧
            ev.off.toNat + ev.stored.length ≤ 2)))) := by
  have recvBound : ∀ (k : Nat), k ≤ INT_MAX → ∀ (log1 : Log) (evs : List Event),
      RecvRun env fd k 0 log1 evs →
      ∀ ev ∈ evs, ev.isRecv = true ∧ 0 ≤ ev.off ∧ ev.off + ev.count = (k : Int) ∧
        ev.off.toNat + ev.stored.length ≤ k := by
    intro k hk log1 evs hrun ev hev
    obtain ⟨h1, h2, h3, _⟩ := recvRun_bounds env fd k hk evs 0 log1 (le_refl _) hrun ev hev
    obtain ⟨_, _, h4⟩ := recvRun_stores env hwb fd k hk evs 0 log1 (le_refl _) hrun ev hev
    exact ⟨h1, h2, h3, h4⟩
  refine ⟨?_, ?_, ?_⟩
  · obtain ⟨evs, ret, h1, _, h3, _, _, hrun⟩ := sendComplete_wb env hwb fd data n log
    refine ⟨evs, ret, h1, h3, fun ev hev => ?_⟩
    obtain ⟨e1, e2, e3, _⟩ := sendRun_bounds env fd data n hn evs 0 log (le_refl _) hrun ev hev
    exact ⟨e1, e2, e3⟩
  · obtain ⟨evs, h1, h2, _, _, hrun⟩ := recvComplete_wb env hwb fd data n log
    have hb := recvBound n hn log evs hrun
    obtain ⟨a1, a2⟩ := applyRecv_above n evs data (fun ev hev => (hb ev hev).2.2.2)
    exact ⟨evs, (received evs).length, applyRecv data evs, h1, h2, hb, a1, a2⟩
  · obtain ⟨b, evs1, evsA, evsB, hcmd, hrun1, hcases⟩ := sendCommand_runs env fd data n log
    refine ⟨b, evs1, evsA, evsB, hcmd, sendRun_isSend env fd data n evs1 0 log hrun1, ?_, ?_⟩
    · rcases hcases with ⟨_, hA, _, _⟩ | ⟨_, hrunA, _⟩
      · subst hA; intro ev hev; simp at hev
      · intro ev hev
        obtain ⟨e1, e2, _, e4⟩ := recvBound 1 (by decide) _ evsA hrunA ev hev
        exact ⟨e1, e2, e4⟩
    · rcases hcases with ⟨_, _, hB, _⟩ | ⟨_, _, ⟨_, hB, _⟩ | ⟨_, hI | hF | hO⟩⟩
      · subst hB; intro ev hev; simp at hev
      · subst hB; intro ev hev; simp at hev
      · intro ev hev
        obtain ⟨e1, e2, _, e4⟩ := recvBound 1 (by decide) _ evsB hI.2.1 ev hev
        exact ⟨e1, e2, Or.inl ⟨hI.1, e4⟩⟩
      · intro ev hev
        obtain ⟨e1, e2, _, e4⟩ := recvBound 2 (by decide) _ evsB hF.2.1 ev hev
        exact ⟨e1, e2, Or.inr ⟨hF.1, e4⟩⟩
      · obtain ⟨_, _, hB, _⟩ := hO
        subst hB; intro ev hev; simp at hev

/-- Witness of C18: five bytes with a socket that accepts three and a peer that
answers two bytes and closes. -/
theorem transfer_loops_bounds_witness :
    (mockEnv 3 [1, 2]).WellBehaved ∧ 5 ≤ INT_MAX ∧
    (∃ evs ret data1,
      recvComplete (mockEnv 3 [1, 2]) 3 [7, 7, 7, 7, 7, 7] 5 [] = some (ret, data1, [] ++ evs) ∧
      ret ≤ 5 ∧
      (∀ ev ∈ evs, ev.isRecv = true ∧ 0 ≤ ev.off ∧ ev.off + ev.count = ((5 : Nat) : Int) ∧
        ev.off.toNat + ev.stored.length ≤ 5) ∧
      data1.length = [7, 7, 7, 7, 7, (7 : Byte)].length ∧
      ∀ i, 5 ≤ i → data1[i]? = [7, 7, 7, 7, 7, (7 : Byte)][i]?) :=
  ⟨mockEnv_wellBehaved 3 [1, 2], by decide,
    (transfer_loops_bounds (mockEnv 3 [1, 2]) (mockEnv_wellBehaved 3 [1, 2]) 3
      [7, 7, 7, 7, 7, 7] 5 (by decide) []).2.1⟩

end NetStation
